import Mathlib

/-!
Shallow embedding of the Soundless-Sonar presence-detector core, translated
from `src/main.rs`, `src/mods/presence.rs`, `src/mods/gated.rs`,
`src/mods/offline.rs` and `src/mods/scan.rs`.

Modelling conventions:
* `f32` / `f64` values are modelled as exact rationals (`ℚ`); a float
  literal such as `1e-9` denotes the exact rational `1/10^9`.
* `f32::sqrt` is kept abstract as an explicit argument `sq : ℚ → ℚ` of the
  definitions that call it (the presence estimator and the multi-measurement
  analyzer).  Theorems about those definitions either hold for every `sq`,
  or instantiate `sq` at inputs on which every square root the code takes
  is of `0` (so `fun _ => 0` agrees with the real square root there), or on
  which the branch taken provably does not depend on the square root's
  value beyond its non-negativity.
* Rust `f32::round` rounds half away from zero (`ratRoundAway`); `as usize`
  truncates a non-negative value and saturates a negative one to `0`
  (`Int.toNat` after rounding).
* `std::time::Instant` is modelled as a rational timestamp in milliseconds
  (seconds for the gated song clock, which only ever compares seconds).
* Rust slices / `Vec` / `VecDeque` are modelled as `List`.
-/

namespace Sonar

/-- Rust `f32::round`: round half away from zero
(`2.5 → 3`, `-2.5 → -3`). -/
def ratRoundAway (q : ℚ) : ℤ :=
  if 0 ≤ q then ⌊q + 1/2⌋ else -⌊-q + 1/2⌋

/-- Rust `x.round() as usize`: negative values saturate to `0`. -/
def roundToUsize (q : ℚ) : ℕ := (ratRoundAway q).toNat

/-- Rust `x.clamp(lo, hi)` on floats (for `lo ≤ hi`). -/
def clampQ (x lo hi : ℚ) : ℚ := min (max x lo) hi

/-- The fields of `Config` (src/main.rs:262-317) read by the modelled core
(presence estimator, aggregator, hysteresis, gated controller). -/
structure Config where
  tick_ms : ℕ
  agg_frac : ℚ
  window_sec : ℕ
  min_dwell_ms : ℕ
  exit_frac : ℚ
  enter_frac : ℚ
  front_min_m : ℚ
  front_max_m : ℚ
  strength_thr : ℚ
  dist_max_m : ℚ
  min_ref_rms : ℚ
  min_rms : ℚ
  fp_thr : ℚ
  fp_margin : ℚ
  guard_s : ℚ
  deriving DecidableEq, Repr

/-- `sonar_presence::MAX_PIPELINE_DELAY_MS` (src/main.rs:33). -/
def MAX_PIPELINE_DELAY_MS : ℕ := 200

/-- `sonar_presence::l2norm_in_place` (src/main.rs:42-52): every entry is
divided by `sqrt(Σ v²) + 1e-9`. -/
def l2norm (sq : ℚ → ℚ) (x : List ℚ) : List ℚ :=
  let e := sq ((x.map fun v => v * v).sum) + 1/1000000000
  x.map fun v => v / e

/-- `sonar_presence::dc_remove_in_place` (src/main.rs:53-59). -/
def dc_remove (x : List ℚ) : List ℚ :=
  let m := x.sum / (x.length : ℚ)
  x.map fun v => v - m

/-- `sonar_presence::preemph_diff_in_place` (src/main.rs:60-68): first
difference with implicit leading zero. -/
def preemph_diff (x : List ℚ) : List ℚ :=
  (x.zip (0 :: x)).map fun p => p.1 - p.2

/-- The `rms` closure inside `estimate_from_ref` (src/main.rs:87-93):
`sqrt(Σ x² / len)`. -/
def rmsQ (sq : ℚ → ℚ) (v : List ℚ) : ℚ :=
  sq ((v.map fun x => x * x).sum / (v.length : ℚ))

/-- Common frame length `n = min(len ref, len mic)` (src/main.rs:78). -/
def commonLen (x_ref x_mic : List ℚ) : ℕ := min x_ref.length x_mic.length

/-- `min_echo` (src/main.rs:125). -/
def minEchoLag (config : Config) (sr : ℚ) : ℕ :=
  roundToUsize (2 * config.front_min_m / 343 * sr)

/-- `max_echo` (src/main.rs:126). -/
def maxEchoLag (config : Config) (sr : ℚ) : ℕ :=
  roundToUsize (2 * config.front_max_m / 343 * sr)

/-- `base_max` (src/main.rs:131). -/
def baseMaxLag (sr : ℚ) : ℕ :=
  roundToUsize ((MAX_PIPELINE_DELAY_MS : ℚ) / 1000 * sr)

/-- `kmax` (src/main.rs:132). -/
def kmaxLag (config : Config) (sr : ℚ) (n : ℕ) : ℕ :=
  min (baseMaxLag sr + maxEchoLag config sr) (n - 1)

/-- The signal conditioning applied to each frame before correlation
(src/main.rs:117-122): DC removal, pre-emphasis, L2 normalization. -/
def conditioned (sq : ℚ → ℚ) (x : List ℚ) (n : ℕ) : List ℚ :=
  l2norm sq (preemph_diff (dc_remove (x.take n)))

/-- One normalized cross-correlation value `r[k]` (src/main.rs:137-147). -/
def corrAt (sq : ℚ → ℚ) (a b : List ℚ) (n k : ℕ) : ℚ :=
  let pairs := (a.take (n - k)).zip (b.drop k)
  let num := (pairs.map fun p => p.1 * p.2).sum
  let ex := (pairs.map fun p => p.1 * p.1).sum
  let ey := (pairs.map fun p => p.2 * p.2).sum
  num / (sq ex * sq ey + 1/1000000000)

/-- The correlation sequence `rs` for lags `0..=kmax` (src/main.rs:135-152). -/
def corrList (sq : ℚ → ℚ) (a b : List ℚ) (n kmax : ℕ) : List ℚ :=
  (List.range (kmax + 1)).map fun k => corrAt sq a b n k

/-- The argmax folds of `estimate_from_ref` (src/main.rs:136-152 and
162-167): walk the given lag indices, keeping the first strict maximum
(`if r > best.1`). -/
def bestFold (rs : List ℚ) (ks : List ℕ) (init : ℕ × ℚ) : ℕ × ℚ :=
  ks.foldl (fun best k => if best.2 < rs.getD k 0 then (k, rs.getD k 0) else best) init

/-- The direct-path lag `k0` (src/main.rs:136-153): argmax of `rs` over
`0..=kmax` starting from `(0, -1.0)`. -/
def directPathLag (rs : List ℚ) (kmax : ℕ) : ℕ :=
  (bestFold rs (List.range (kmax + 1)) (0, -1)).1

/-- The inclusive index list `start..=end` of the echo band. -/
def bandIdxList (start end_ : ℕ) : List ℕ :=
  (List.range (end_ + 1 - start)).map fun i => start + i

/-- Second-best correlation in the echo band outside a ±6 neighborhood of
the best peak, floored at `0` (src/main.rs:169-182). -/
def secondBest (rs : List ℚ) (start end_ k1 : ℕ) : ℚ :=
  let second := (bandIdxList start end_).foldl
    (fun second idx =>
      if idx + 6 < k1 ∨ k1 < idx - 6 then
        (if second < rs.getD idx 0 then rs.getD idx 0 else second)
      else second) (-1)
  if second < 0 then 0 else second

/-- Percentile index into the sorted band (src/main.rs:187-189):
`clamp(⌊len·p⌋, 0, len-1)`. -/
def bandPercentIdx (len : ℕ) (p : ℚ) : ℕ :=
  min (⌊(len : ℚ) * p⌋).toNat (len - 1)

/-- Insert into an ascending-sorted list of rationals. -/
def insertAsc (x : ℚ) : List ℚ → List ℚ
  | [] => [x]
  | y :: ys => if x ≤ y then x :: y :: ys else y :: insertAsc x ys

/-- `band.sort_by(partial_cmp)` (src/main.rs:186): ascending sort.  Since the
band holds plain rationals (equal elements are identical values), the
ascending sorted list is unique, so insertion sort coincides with the
source's stable sort. -/
def sortAsc (l : List ℚ) : List ℚ := l.foldr insertAsc []

/-- `sonar_presence::estimate_from_ref` (src/main.rs:71-201).  The logger
argument of the source is dropped (it never affects the result). -/
def estimate_from_ref (sq : ℚ → ℚ) (x_ref x_mic : List ℚ) (sr : ℚ)
    (config : Config) : Option (ℚ × ℚ) :=
  let n := commonLen x_ref x_mic
  if n < 1024 then none else
  let a0 := x_ref.take n
  let b0 := x_mic.take n
  if rmsQ sq b0 < config.min_rms ∧ rmsQ sq a0 < config.min_ref_rms then none else
  let a := conditioned sq x_ref n
  let b := conditioned sq x_mic n
  let min_echo := minEchoLag config sr
  let max_echo := maxEchoLag config sr
  if max_echo ≤ min_echo ∨ n ≤ max_echo then none else
  let kmax := kmaxLag config sr n
  let rs := corrList sq a b n kmax
  let k0 := directPathLag rs kmax
  let start := k0 + min_echo
  let end_ := min (k0 + max_echo) kmax
  if end_ ≤ start then none else
  let best1 := bestFold rs (bandIdxList start end_) (start, -1)
  let second := secondBest rs start end_ best1.1
  let band := (bandIdxList start end_).map fun idx => rs.getD idx 0
  let sorted := sortAsc band
  let p75 := sorted.getD (bandPercentIdx band.length (3/4)) 0
  let p95 := max (sorted.getD (bandPercentIdx band.length (19/20)) 0) (p75 + 1/1000000)
  let prom0 := clampQ (max (best1.2 - second) 0 / (p95 - p75)) 0 1
  let prominence := if best1.2 < p75 then prom0 * (1/2) else prom0
  let delta_k : ℚ := ((best1.1 - k0 : ℕ) : ℚ)
  let dist_m := delta_k / sr * 343 / 2
  some (min dist_m config.dist_max_m, prominence)

/-- `sonar_presence::window_cap` (src/main.rs:36-39): integer division,
floored at one.  `MultiMeasurementAnalyzer::new` (presence.rs:99) computes
its capacity with the same formula. -/
def window_cap (window_sec tick_ms : ℕ) : ℕ :=
  ((1000 / tick_ms) * window_sec).max 1

/-- `while history.len() > cap { history.pop_front(); }`
(src/main.rs:222-224, presence.rs:115-117). -/
def trimFront (cap : ℕ) : List α → List α
  | [] => []
  | x :: xs => if cap < (x :: xs).length then trimFront cap xs else x :: xs

/-- Output of `Aggregator::push` when the window is full
(src/main.rs:239-243).  `avg_d` is `none` where the source yields
`f64::INFINITY` (no `Some` vote in the window). -/
structure AggOut where
  present : Bool
  avg_d : Option ℚ
  avg_s : ℚ
  agree : ℚ
  deriving DecidableEq, Repr

/-- `sonar_presence::Aggregator` (src/main.rs:203-208).  The stored
`window_sec` field is never read after `new` and is omitted. -/
structure Aggregator where
  cap : ℕ
  history : List (Option (ℚ × ℚ))
  agg_frac : ℚ
  deriving DecidableEq, Repr

/-- `Aggregator::new` (src/main.rs:210-218). -/
def Aggregator.new (window_sec tick_ms : ℕ) (agg_frac : ℚ) : Aggregator :=
  ⟨window_cap window_sec tick_ms, [], agg_frac⟩

/-- The last `n` entries of a list (what front-trimming keeps). -/
def lastN (n : ℕ) (l : List α) : List α := l.drop (l.length - n)

/-- The aggregate `Aggregator::push` emits from the trimmed window
(src/main.rs:225-243): `none` while the window is not yet full, otherwise
`(present, mean distance, mean strength, agreement)` with means over the
`Some` votes only. -/
def aggOutOf (cap : ℕ) (agg_frac : ℚ) (h : List (Option (ℚ × ℚ))) : Option AggOut :=
  if h.length < cap then none
  else
    let votes := h.filterMap id
    let cnt := votes.length
    let sum_d := (votes.map Prod.fst).sum
    let sum_s := (votes.map Prod.snd).sum
    let agree : ℚ := (cnt : ℚ) / (cap : ℚ)
    some { present := decide (agg_frac ≤ agree)
           avg_d := if 0 < cnt then some (sum_d / (cnt : ℚ)) else none
           avg_s := if 0 < cnt then sum_s / (cnt : ℚ) else 0
           agree := agree }

/-- `Aggregator::push` (src/main.rs:220-244): append, trim the front to
`cap`, and emit the aggregate once the window is full. -/
def Aggregator.push (ag : Aggregator) (vote : Option (ℚ × ℚ)) :
    Aggregator × Option AggOut :=
  let h := trimFront ag.cap (ag.history ++ [vote])
  ({ ag with history := h }, aggOutOf ag.cap ag.agg_frac h)

/-- Push a list of votes in order, collecting every push's output. -/
def aggRun (ag : Aggregator) : List (Option (ℚ × ℚ)) → Aggregator × List (Option AggOut)
  | [] => (ag, [])
  | v :: vs =>
    let p := ag.push v
    let rest := aggRun p.1 vs
    (rest.1, p.2 :: rest.2)

/-- Hysteresis state: the smoothed present flag and the wall-clock time of
the last flip (milliseconds, modelled as `ℚ`). -/
structure HystState where
  present : Bool
  lastFlip : ℚ
  deriving DecidableEq, Repr

/-- Hysteresis initialization (presence.rs:470-471, gated.rs:289-290):
state `Absent`, `last_flip = now - Duration::from_millis(min_dwell_ms)`. -/
def hystInit (t0 : ℚ) (min_dwell_ms : ℕ) : HystState :=
  ⟨false, t0 - (min_dwell_ms : ℚ)⟩

/-- The `want_present` computation of the hysteresis (gated.rs:448-452,
presence.rs:523-527). -/
def hystWant (enter_frac exit_frac : ℚ) (present : Bool) (value : ℚ) : Bool :=
  if present then decide (exit_frac ≤ value) else decide (enter_frac ≤ value)

/-- One hysteresis update on an accepted aggregate value (gated.rs:446-460;
presence.rs:522-534 is the same logic applied to the analyzer's
confidence).  Returns the new state and whether a flip happened.
`Instant::duration_since ≥ Duration::from_millis(d)` is modelled as
`(d : ℚ) ≤ now - lastFlip`. -/
def hystStep (enter_frac exit_frac : ℚ) (min_dwell_ms : ℕ) (st : HystState)
    (now value : ℚ) : HystState × Bool :=
  if hystWant enter_frac exit_frac st.present value ≠ st.present ∧
      (min_dwell_ms : ℚ) ≤ now - st.lastFlip then
    (⟨hystWant enter_frac exit_frac st.present value, now⟩, true)
  else (st, false)

/-- Run the hysteresis over `(now, value)` events, collecting flip times. -/
def hystRun (enter_frac exit_frac : ℚ) (min_dwell_ms : ℕ) :
    HystState → List (ℚ × ℚ) → HystState × List ℚ
  | st, [] => (st, [])
  | st, e :: es =>
    let p := hystStep enter_frac exit_frac min_dwell_ms st e.1 e.2
    let rest := hystRun enter_frac exit_frac min_dwell_ms p.1 es
    (rest.1, cond p.2 (e.1 :: rest.2) rest.2)

/-- Segment-gating test of a gated tick (gated.rs:407-413): is the song
clock inside some `[start - guard_s, end + guard_s]`? -/
def insideSegs (segs : List (ℚ × ℚ)) (guard_s t_song : ℚ) : Bool :=
  segs.any fun ab => decide (ab.1 - guard_s ≤ t_song) && decide (t_song ≤ ab.2 + guard_s)

/-- Vote derivation from an estimator result (gated.rs:443-444):
`present_instant = d ≤ dist_max_m && s ≥ strength_thr`; non-qualifying
results vote `None`. -/
def qualifiedVote (config : Config) (r : Option (ℚ × ℚ)) : Option (ℚ × ℚ) :=
  match r with
  | some ds => if ds.1 ≤ config.dist_max_m ∧ config.strength_thr ≤ ds.2 then some ds else none
  | none => none

/-- The vote one aligned gated tick pushes into the aggregator
(gated.rs:405-491): inside a widened segment, snapshot frames, run the
estimator and push the qualified vote; a short snapshot, a `None` estimate
or a tick outside every widened segment pushes `None`. -/
def gatedTickVote (sq : ℚ → ℚ) (config : Config) (segs : List (ℚ × ℚ))
    (t_song : ℚ) (ref_frame mic_frame : List ℚ) (analysis_len : ℕ) (sr : ℚ) :
    Option (ℚ × ℚ) :=
  if insideSegs segs config.guard_s t_song then
    if mic_frame.length = analysis_len ∧ ref_frame.length = analysis_len then
      qualifiedVote config (estimate_from_ref sq ref_frame mic_frame sr config)
    else none
  else none

/-- `prescan::Fingerprint` (src/main.rs:1431-1438); `u8` bins as `ℕ`. -/
structure Fingerprint where
  fp_type : String
  bands : ℕ
  hop_s : ℚ
  offset_s : ℚ
  bins : List ℕ
  deriving DecidableEq, Repr

/-- Iteration count of a Rust loop `while x ≤ bound { …; x += step }`
started at `x₀`: the values taken by `x` are exactly `x₀ + j·step` for
`j < stepCount x₀ bound step` (float accumulation is exact over `ℚ`).
For `step ≤ 0` the source would loop forever; that never arises (stored
fingerprints are only parsed with `hop_s > 0`, live ones have
`hop_s = hop_len/sr > 0`) and is modelled as zero iterations. -/
def stepCount (x₀ bound step : ℚ) : ℕ :=
  if step ≤ 0 then 0 else (⌊(bound - x₀) / step⌋ + 1).toNat

/-- Inner sampling loop of `fp_similarity` at one lag (src/main.rs:1563-1581):
returns `(hits, total)`. -/
def simCounts (a b : Fingerprint) (step t_common lag : ℚ) : ℕ × ℕ :=
  (List.range (stepCount 0 (t_common + 1/1000000) step)).foldl
    (fun (ht : ℕ × ℕ) (j : ℕ) =>
      let t : ℚ := (j : ℚ) * step
      let ia := ratRoundAway (t / a.hop_s)
      let ib := ratRoundAway ((t + lag) / b.hop_s)
      if 0 ≤ ia ∧ 0 ≤ ib then
        if ia.toNat < a.bins.length ∧ ib.toNat < b.bins.length then
          if a.bins.getD ia.toNat 0 = b.bins.getD ib.toNat 0
          then (ht.1 + 1, ht.2 + 1) else (ht.1, ht.2 + 1)
        else ht
      else ht)
    (0, 0)

/-- `prescan::fp_similarity` (src/main.rs:1542-1594): best coincidence
ratio over a ±0.5 s lag sweep in steps of `min(a.hop_s, b.hop_s)`. -/
def fp_similarity (a b : Fingerprint) : ℚ :=
  if a.fp_type ≠ b.fp_type ∨ a.bands ≠ b.bands then 0
  else if a.bins = [] ∨ b.bins = [] then 0
  else
    let step := min a.hop_s b.hop_s
    let dur_a := ((a.bins.length - 1 : ℕ) : ℚ) * a.hop_s
    let dur_b := ((b.bins.length - 1 : ℕ) : ℚ) * b.hop_s
    let t_common := min dur_a dur_b
    if t_common ≤ 0 then 0
    else
      (List.range (stepCount (-(1/2)) (1/2 + 1/1000000) step)).foldl
        (fun (best : ℚ) (i : ℕ) =>
          let lag := -(1/2) + (i : ℚ) * step
          let hc := simCounts a b step t_common lag
          if 0 < hc.2 ∧ best < (hc.1 : ℚ) / (hc.2 : ℚ) then (hc.1 : ℚ) / (hc.2 : ℚ)
          else best)
        0

/-- One stored song (gated.rs:53-58): URL, sorted segments, fingerprint.
The source's `SongFingerprint` repeats the URL next to the fingerprint
fields; the gated loop rebuilds a `prescan::Fingerprint` from it
(gated.rs:334-340), which is what `fp` models. -/
structure SongWindows where
  url : String
  segs : List (ℚ × ℚ)
  fp : Fingerprint
  deriving DecidableEq, Repr

/-- The best/second similarity scan over the stored songs
(gated.rs:330-348): returns `((best_url, top), second)`, starting from
`(("", 0.0), 0.0)`. -/
def armScan (live : Fingerprint) (songs : List SongWindows) : (String × ℚ) × ℚ :=
  songs.foldl
    (fun acc s =>
      let sim := fp_similarity live s.fp
      if acc.1.2 < sim then ((s.url, sim), acc.1.2)
      else if acc.2 < sim then (acc.1, sim) else acc)
    (("", 0), 0)

/-- The alignment acceptance test (gated.rs:365):
`!best.0.is_empty() && top >= fp_thr && (top - second) >= fp_margin`. -/
def armAccept (live : Fingerprint) (songs : List SongWindows) (config : Config) : Bool :=
  let sc := armScan live songs
  decide (sc.1.1 ≠ "") && decide (config.fp_thr ≤ sc.1.2) &&
    decide (config.fp_margin ≤ sc.1.2 - sc.2)

/-- Alignment established on acceptance (gated.rs:366-373):
`(url, t0, offset)` with `t0 = now - offset_s` of the matched song's
fingerprint; the unreachable failed `find` is modelled as `none`. -/
def armAlign (live : Fingerprint) (songs : List SongWindows) (config : Config)
    (now : ℚ) : Option (String × ℚ × ℚ) :=
  if armAccept live songs config then
    match songs.find? (fun s => decide (s.url = (armScan live songs).1.1)) with
    | some song => some (song.url, now - song.fp.offset_s, song.fp.offset_s)
    | none => none
  else none

/-- `TimestampedMeasurement` (presence.rs:30-37).  Only `distance_m` and
`strength` are modelled: `timestamp`, `correlation` and `sample_rate` are
stored but never read by the analyzer. -/
structure Measurement where
  distance_m : ℚ
  strength : ℚ
  deriving DecidableEq, Repr

/-- `PresenceResult` (presence.rs:87-95); `avg_distance_m = none` models
`f32::INFINITY`. -/
structure PresenceResult where
  present : Bool
  confidence : ℚ
  avg_distance_m : Option ℚ
  avg_strength : ℚ
  detection_count : ℕ
  total_measurements : ℕ
  deriving DecidableEq, Repr

/-- Distance bin key `(dist * 10.0).round() as i32` (presence.rs:270). -/
def distBin (d : ℚ) : ℤ := ratRoundAway (d * 10)

/-- `MultiMeasurementAnalyzer::analyze_multi_peak` (presence.rs:231-349).
The `HashMap` of clusters is modelled by grouping on the first-occurrence
ordered key list; Rust's `HashMap` iterates in unspecified order, and the
facts proved below only use inputs with at most one candidate cluster. -/
def analyze_multi_peak (sq : ℚ → ℚ) (config : Config) (hist : List Measurement) :
    Option PresenceResult :=
  if hist = [] then none else
  let all_detections := (hist.filter fun m =>
      decide (config.front_min_m ≤ m.distance_m) &&
      decide (m.distance_m ≤ config.front_max_m) &&
      decide (config.strength_thr * (1/2) ≤ m.strength)).map
    fun m => (m.distance_m, m.strength)
  if all_detections = [] then
    some { present := false, confidence := 0, avg_distance_m := none,
           avg_strength := 0, detection_count := 0,
           total_measurements := hist.length }
  else
    let keys := (all_detections.map fun p => distBin p.1).dedup
    let clusters := keys.map fun k => all_detections.filter fun p => decide (distBin p.1 = k)
    let best := clusters.foldl
      (fun best ds =>
        let avg_s := (ds.map Prod.snd).sum / (ds.length : ℚ)
        let score := avg_s * sq ((ds.length : ℚ))
        if best.2 < score then (some ds, score) else best)
      ((none : Option (List (ℚ × ℚ))), 0)
    match best.1 with
    | none => none
    | some ds =>
      let avg_dist := (ds.map Prod.fst).sum / (ds.length : ℚ)
      let avg_s := (ds.map Prod.snd).sum / (ds.length : ℚ)
      let variance := (ds.map fun p => (p.1 - avg_dist) * (p.1 - avg_dist)).sum / (ds.length : ℚ)
      let consistency := 1 / (1 + sq variance * 10)
      let detection_ratio := (ds.length : ℚ) / (hist.length : ℚ)
      let confidence := clampQ
        (detection_ratio * (2/5) + avg_s * (2/5) + consistency * (1/5)) 0 1
      some { present := decide (config.agg_frac * (1/2) ≤ detection_ratio) &&
                        decide (config.strength_thr * (3/4) ≤ avg_s),
             confidence := confidence,
             avg_distance_m := some avg_dist,
             avg_strength := avg_s,
             detection_count := ds.length,
             total_measurements := hist.length }

/-- `MultiMeasurementAnalyzer` state (presence.rs:79-85). -/
structure MMAnalyzer where
  cap : ℕ
  history : List Measurement
  deriving DecidableEq, Repr

/-- `MultiMeasurementAnalyzer::new` (presence.rs:98-107). -/
def MMAnalyzer.new (window_sec tick_ms : ℕ) : MMAnalyzer :=
  ⟨window_cap window_sec tick_ms, []⟩

/-- `MultiMeasurementAnalyzer::push` (presence.rs:109-126): append a `Some`
measurement, trim, and analyze once `len ≥ max(cap/2, 3)`. -/
def MMAnalyzer.push (sq : ℚ → ℚ) (config : Config) (an : MMAnalyzer)
    (m : Option Measurement) : MMAnalyzer × Option PresenceResult :=
  let h0 := match m with
    | some mm => an.history ++ [mm]
    | none => an.history
  let h := trimFront an.cap h0
  let out := if h.length < (an.cap / 2).max 3 then none
             else analyze_multi_peak sq config h
  ({ an with history := h }, out)

/-- The hysteresis target computed by the presence loop from the analyzer
result (presence.rs:522-527). -/
def presenceWant (config : Config) (smooth_present : Bool) (confidence : ℚ) : Bool :=
  if smooth_present then decide (config.exit_frac ≤ confidence)
  else decide (config.enter_frac ≤ confidence)

/-- The hysteresis target computed by the gated loop from the aggregate
(gated.rs:448-452). -/
def gatedWant (config : Config) (smooth_present : Bool) (agree : ℚ) : Bool :=
  if smooth_present then decide (config.exit_frac ≤ agree)
  else decide (config.enter_frac ≤ agree)

/-- Lower-case hex digit of a value `< 16`. -/
def hexChar (n : ℕ) : Char :=
  if n < 10 then Char.ofNat (48 + n) else Char.ofNat (87 + n)

/-- `to_hex` (offline.rs:12-18 and scan.rs:13-19): `format!("{:02x}", b)`
for each byte, i.e. two lower-case hex digits per byte value `< 256`. -/
def to_hex (bytes : List ℕ) : String :=
  ⟨bytes.foldr (fun b acc => hexChar (b / 16) :: hexChar (b % 16) :: acc) []⟩

/-- Rust `char::to_digit(16)`: decimal digits, then either case of a-f. -/
def charToDigit16 (c : Char) : Option ℕ :=
  if 48 ≤ c.toNat ∧ c.toNat ≤ 57 then some (c.toNat - 48)
  else if 97 ≤ c.toNat ∧ c.toNat ≤ 102 then some (c.toNat - 87)
  else if 65 ≤ c.toNat ∧ c.toNat ≤ 70 then some (c.toNat - 55)
  else none

/-- The two-chars-at-a-time decode loop of `from_hex` (gated.rs:33-40),
pushing `(hi << 4) | lo`. -/
def fromHexPairs : List Char → Option (List ℕ)
  | [] => some []
  | [_] => none
  | c1 :: c2 :: rest =>
    match charToDigit16 c1, charToDigit16 c2, fromHexPairs rest with
    | some hi, some lo, some tail => some ((((hi <<< 4) ||| lo)) :: tail)
    | _, _, _ => none

/-- `from_hex` (gated.rs:29-41): reject odd length, then decode pairs. -/
def from_hex (s : String) : Option (List ℕ) :=
  if s.length % 2 ≠ 0 then none else fromHexPairs s.data

/-! Named forms of the `estimate_from_ref` early-return conditions
(src/main.rs:79, 110, 127, 159), for stating when the estimator yields
`None`. -/

/-- The energy gate (src/main.rs:110): both RMS values below their
thresholds. -/
def rmsGateFails (sq : ℚ → ℚ) (x_ref x_mic : List ℚ) (config : Config) : Prop :=
  rmsQ sq (x_mic.take (commonLen x_ref x_mic)) < config.min_rms ∧
  rmsQ sq (x_ref.take (commonLen x_ref x_mic)) < config.min_ref_rms

/-- The degenerate echo-range test (src/main.rs:127):
`max_echo ≤ min_echo` or `max_echo ≥ n`. -/
def echoConfigDegenerate (x_ref x_mic : List ℚ) (sr : ℚ) (config : Config) : Prop :=
  maxEchoLag config sr ≤ minEchoLag config sr ∨ commonLen x_ref x_mic ≤ maxEchoLag config sr

/-- The direct-path lag `k0` as a function of the raw inputs. -/
def directLagOf (sq : ℚ → ℚ) (x_ref x_mic : List ℚ) (sr : ℚ) (config : Config) : ℕ :=
  directPathLag
    (corrList sq (conditioned sq x_ref (commonLen x_ref x_mic))
      (conditioned sq x_mic (commonLen x_ref x_mic)) (commonLen x_ref x_mic)
      (kmaxLag config sr (commonLen x_ref x_mic)))
    (kmaxLag config sr (commonLen x_ref x_mic))

/-- The undocumented fourth early return (src/main.rs:156-160): the echo
search band `[k0 + min_echo, min(k0 + max_echo, kmax)]` is empty. -/
def echoBandEmpty (sq : ℚ → ℚ) (x_ref x_mic : List ℚ) (sr : ℚ) (config : Config) : Prop :=
  min (directLagOf sq x_ref x_mic sr config + maxEchoLag config sr)
      (kmaxLag config sr (commonLen x_ref x_mic)) ≤
    directLagOf sq x_ref x_mic sr config + minEchoLag config sr

/-! Concrete inputs used by witnesses and counterexamples. -/

/-- Abstract square root instantiated at inputs where every square root the
source takes is of `0` (or provably does not steer any branch). -/
def sqZero : ℚ → ℚ := fun _ => 0

/-- A concrete configuration: CLI defaults except `front_min_m = 0`,
`front_max_m = 34.3`, `strength_thr = 0`, `min_rms = min_ref_rms = 0`
(all reachable through the CLI, which does not clamp these flags). -/
def cfgEx : Config :=
  { tick_ms := 250, agg_frac := 1/2, window_sec := 5, min_dwell_ms := 5000,
    exit_frac := 3/10, enter_frac := 3/5, front_min_m := 0, front_max_m := 343/10,
    strength_thr := 0, dist_max_m := 3/2, min_ref_rms := 0, min_rms := 0,
    fp_thr := 3/5, fp_margin := 7/100, guard_s := 1/2 }

/-- `cfgEx` with an arbitrary `--dist-max-m` (the CLI parses it unclamped). -/
def cfgExD (dm : ℚ) : Config := { cfgEx with dist_max_m := dm }

/-- `cfgEx` with a negative `--dist-max-m`. -/
def cfgNegDist : Config := cfgExD (-1)

/-- 1024 zero samples: a frame of digital silence. -/
def zeros1024 : List ℚ := List.replicate 1024 0

/-- A unit impulse at sample 0 (reference frame). -/
def exSpikeRef : List ℚ := 1 :: List.replicate 1023 0

/-- A unit impulse at sample 2 (microphone frame): at 5 Hz sample rate the
correlation peak sits at the final searched lag `kmax = 2`. -/
def exSpikeMic : List ℚ := 0 :: 0 :: 1 :: List.replicate 1021 0

/-- The conditioned reference spike frame (computed in `condRef_eval`). -/
def condA : List ℚ :=
  (1023/1024 * 1000000000) :: (-1000000000 : ℚ) :: List.replicate 1022 0

/-- The conditioned microphone spike frame (computed in `condMic_eval`). -/
def condB : List ℚ :=
  (-(1000000000/1024) : ℚ) :: 0 :: 1000000000 :: (-1000000000 : ℚ) :: List.replicate 1020 0

/-- The correlation sequence of the spike pair for lags `0, 1, 2`
(computed in `corrSpike_eval`): the only positive value sits at lag 2. -/
def rsSpike : List ℚ :=
  [-1023 * 10 ^ 27 / 1048576, -(10 ^ 27), 2047 * 10 ^ 27 / 1024]

/-- `cfgEx` with `strength_thr = 0.2` (the CLI default). -/
def exCfgC1 : Config := { cfgEx with strength_thr := 1/5 }

/-- A measurement whose strength `0.05` is below
`strength_thr * 0.5 = 0.1`, so the analyzer filters it out. -/
def exWeakMeas : Measurement := ⟨1, 1/20⟩

/-- Three presence ticks, each with a `Some` estimator result, pushed into
a fresh analyzer (`window_sec = 1`, `tick_ms = 250`, so `cap = 4` and the
analyzer starts emitting at `max(cap/2, 3) = 3` measurements): the output
of the third push. -/
def exAnalyzerOut : Option PresenceResult :=
  (MMAnalyzer.push sqZero exCfgC1
    (MMAnalyzer.push sqZero exCfgC1
      (MMAnalyzer.push sqZero exCfgC1 (MMAnalyzer.new 1 250) (some exWeakMeas)).1
      (some exWeakMeas)).1
    (some exWeakMeas)).2

/-- A stored two-bin fingerprint taken at offset 12 s. -/
def exFpTwo : Fingerprint := ⟨"bandpeak_v1", 32, 1/2, 12, [0, 0]⟩

/-- A one-bin fingerprint: non-empty, yet its common duration is `0`. -/
def exFpSingle : Fingerprint := ⟨"bandpeak_v1", 32, 1/2, 3, [5]⟩

/-- A live fingerprint identical in content to `exFpTwo` (offset 0). -/
def exLiveA : Fingerprint := ⟨"bandpeak_v1", 32, 1/2, 0, [0, 0]⟩

/-- The stored song matching `exLiveA` perfectly. -/
def exSongA : SongWindows := ⟨"a", [(20, 25)], exFpTwo⟩

/-- A stored song whose fingerprint has a different band count, so every
similarity against it is `0`. -/
def exSongMismatch : SongWindows := ⟨"a", [(20, 25)], ⟨"bandpeak_v1", 16, 1/2, 12, [0]⟩⟩

/-- `cfgEx` with `--fp-thr 0 --fp-margin 0` (both parsed unclamped). -/
def exCfgArm : Config := { cfgEx with fp_thr := 0, fp_margin := 0 }

/-- Five votes: `Some, None, Some, None, Some`. -/
def exVotes : List (Option (ℚ × ℚ)) := [some (1, 1), none, some (2, 0), none, some (3, 1)]

section RatEval

attribute [local semireducible] Rat.add Rat.mul Rat.inv Rat.sub

/-! Aggregator window lemmas. -/

theorem trimFront_eq_lastN {α : Type _} (cap : ℕ) (l : List α) :
    trimFront cap l = lastN cap l := by
  induction l with
  | nil => simp [trimFront, lastN]
  | cons x xs ih =>
    simp only [trimFront, lastN] at ih ⊢
    split
    next hc =>
      rw [ih]
      have h1 : (x :: xs).length - cap = (xs.length - cap) + 1 := by
        simp only [List.length_cons] at hc ⊢
        omega
      rw [h1, List.drop_succ_cons]
    next hc =>
      have h1 : (x :: xs).length - cap = 0 := by
        simp only [List.length_cons, not_lt] at hc ⊢
        omega
      rw [h1, List.drop_zero]

theorem length_lastN {α : Type _} (n : ℕ) (l : List α) :
    (lastN n l).length = min n l.length := by
  simp only [lastN, List.length_drop]
  omega

theorem lastN_append_lastN {α : Type _} (n : ℕ) (l l2 : List α) :
    lastN n (lastN n l ++ l2) = lastN n (l ++ l2) := by
  simp only [lastN, List.length_append, List.length_drop]
  rw [← List.drop_append_of_le_length (by omega), List.drop_drop]
  congr 1
  omega

theorem aggRun_length (ag : Aggregator) (vs : List (Option (ℚ × ℚ))) :
    (aggRun ag vs).2.length = vs.length := by
  induction vs generalizing ag with
  | nil => rfl
  | cons v vs ih => simp [aggRun, ih]

/-- The `i`-th output of a run of pushes is the aggregate of the last
`cap` votes seen so far. -/
theorem aggRun_getD (cap : ℕ) (af : ℚ) (vs : List (Option (ℚ × ℚ))) :
    ∀ (pre : List (Option (ℚ × ℚ))) (i : ℕ), i < vs.length →
      (aggRun ⟨cap, lastN cap pre, af⟩ vs).2.getD i none =
        aggOutOf cap af (lastN cap (pre ++ vs.take (i + 1))) := by
  induction vs with
  | nil => intro pre i hi; cases hi
  | cons v vs ih =>
    intro pre i hi
    have hpush : Aggregator.push ⟨cap, lastN cap pre, af⟩ v =
        (⟨cap, lastN cap (pre ++ [v]), af⟩, aggOutOf cap af (lastN cap (pre ++ [v]))) := by
      simp only [Aggregator.push, trimFront_eq_lastN, lastN_append_lastN]
    cases i with
    | zero =>
      simp [aggRun, hpush, List.take_succ_cons]
    | succ i =>
      simp only [aggRun, hpush, List.getD_cons_succ]
      rw [ih (pre ++ [v]) i (by simpa using hi)]
      simp [List.append_assoc, List.take_succ_cons]

theorem aggOutOf_eq_none_iff (cap : ℕ) (af : ℚ) (h : List (Option (ℚ × ℚ))) :
    aggOutOf cap af h = none ↔ h.length < cap := by
  unfold aggOutOf
  split <;> simp_all

/-- C4: with `cap = (1000/tick_ms)·window_sec` (integer division; for
`1 ≤ tick_ms ≤ 1000` and `window_sec ≥ 1` this is the `window_cap` the
code computes), the `i`-th push returns `none` iff fewer than `cap` votes
have been pushed, and an emitted aggregate's agreement is the fraction of
`Some` entries among the window (the last `cap` votes). -/
theorem every_push_after_warmup_aggregates (ws t : ℕ) (af : ℚ)
    (votes : List (Option (ℚ × ℚ))) (i : ℕ)
    (ht1 : 1 ≤ t) (ht2 : t ≤ 1000) (hws : 1 ≤ ws) (hi : i < votes.length) :
    ((aggRun (Aggregator.new ws t af) votes).2.getD i none = none ↔ i + 1 < 1000 / t * ws)
    ∧ ∀ agg, (aggRun (Aggregator.new ws t af) votes).2.getD i none = some agg →
        agg.agree =
          ((((votes.take (i + 1)).drop (i + 1 - 1000 / t * ws)).filterMap id).length : ℚ)
            / ((1000 / t * ws : ℕ) : ℚ) := by
  have hq : 1 ≤ 1000 / t := (Nat.one_le_div_iff (by omega)).2 ht2
  have hone : 1 ≤ 1000 / t * ws := le_trans (by omega) (Nat.mul_le_mul hq hws)
  have hnew : Aggregator.new ws t af = ⟨1000 / t * ws, lastN (1000 / t * ws) [], af⟩ := by
    have hmax : (1000 / t * ws).max 1 = 1000 / t * ws := Nat.max_eq_left hone
    unfold Aggregator.new window_cap
    rw [hmax]
    simp [lastN]
  have hlen : (votes.take (i + 1)).length = i + 1 := by
    rw [List.length_take]
    omega
  have h0 : (aggRun (Aggregator.new ws t af) votes).2.getD i none =
      aggOutOf (1000 / t * ws) af (lastN (1000 / t * ws) (votes.take (i + 1))) := by
    rw [hnew, aggRun_getD _ _ _ [] i hi, List.nil_append]
  constructor
  · rw [h0, aggOutOf_eq_none_iff, length_lastN, hlen]
    omega
  · intro agg hsome
    rw [h0] at hsome
    unfold aggOutOf at hsome
    split at hsome
    · exact Option.noConfusion hsome
    · simp only [Option.some.injEq] at hsome
      subst hsome
      have hln : lastN (1000 / t * ws) (votes.take (i + 1)) =
          (votes.take (i + 1)).drop (i + 1 - 1000 / t * ws) := by
        rw [lastN, hlen]
      rw [hln]

theorem every_push_after_warmup_aggregates_witness :
    ((aggRun (Aggregator.new 1 250 (1/2)) exVotes).2.getD 3 none = none ↔ 3 + 1 < 1000 / 250 * 1)
    ∧ ∀ agg, (aggRun (Aggregator.new 1 250 (1/2)) exVotes).2.getD 3 none = some agg →
        agg.agree =
          ((((exVotes.take (3 + 1)).drop (3 + 1 - 1000 / 250 * 1)).filterMap id).length : ℚ)
            / ((1000 / 250 * 1 : ℕ) : ℚ) :=
  every_push_after_warmup_aggregates 1 250 (1/2) exVotes 3 (by decide) (by decide)
    (by decide) (by decide)

/-! C10: the capacity formula. -/

/-- C10 (amended): `cap = max(1, (1000/tick_ms)·window_sec)`; for
`tick_ms > 1000` the capacity is `1` and every push emits an aggregate;
the capacity is strictly below the real-valued `(1000/tick_ms)·window_sec`
for non-divisors `tick_ms ≤ 1000`.  The original's undershoot clause fails
for `tick_ms > 1000`: the counterexample at `tick_ms = 1001`,
`window_sec = 1` has capacity `1`, above the real value `1000/1001`. -/
theorem window_cap_floor_at_one (ws t : ℕ) (af : ℚ)
    (votes : List (Option (ℚ × ℚ))) (i : ℕ)
    (ht : 1 ≤ t) (hws : 1 ≤ ws) (hi : i < votes.length) :
    window_cap ws t = Nat.max 1 (1000 / t * ws)
    ∧ (1000 < t → window_cap ws t = 1 ∧
        (aggRun (Aggregator.new ws t af) votes).2.getD i none ≠ none)
    ∧ (t ≤ 1000 → ¬ (t ∣ 1000) →
        ((window_cap ws t : ℕ) : ℚ) < (1000 : ℚ) / (t : ℚ) * (ws : ℚ)) := by
  refine ⟨Nat.max_comm _ _, fun h1000 => ?_, fun hle hdvd => ?_⟩
  · have hq0 : 1000 / t = 0 := Nat.div_eq_of_lt h1000
    have hcap1 : window_cap ws t = 1 := by
      unfold window_cap
      rw [hq0, Nat.zero_mul]
      rfl
    refine ⟨hcap1, ?_⟩
    have hnew : Aggregator.new ws t af = ⟨1, lastN 1 [], af⟩ := by
      unfold Aggregator.new
      rw [hcap1]
      simp [lastN]
    rw [hnew, aggRun_getD _ _ _ [] i hi, List.nil_append, Ne,
      aggOutOf_eq_none_iff, length_lastN, List.length_take]
    omega
  · have hq : 1 ≤ 1000 / t := (Nat.one_le_div_iff (by omega)).2 hle
    have hone : 1 ≤ 1000 / t * ws := le_trans (by omega) (Nat.mul_le_mul hq hws)
    have hcap : window_cap ws t = 1000 / t * ws := Nat.max_eq_left hone
    have htq : (0 : ℚ) < (t : ℚ) := by positivity
    have hmul : 1000 / t * t < 1000 := by
      rcases Nat.lt_or_ge (1000 / t * t) 1000 with h | h
      · exact h
      · have heq : 1000 = 1000 / t * t :=
          (le_antisymm (Nat.div_mul_le_self 1000 t) h).symm
        exact absurd ⟨1000 / t, heq.trans (Nat.mul_comm _ _)⟩ hdvd
    have hqlt : ((1000 / t : ℕ) : ℚ) < (1000 : ℚ) / (t : ℚ) := by
      rw [lt_div_iff htq]
      calc ((1000 / t : ℕ) : ℚ) * (t : ℚ) = ((1000 / t * t : ℕ) : ℚ) := by push_cast; ring
      _ < 1000 := by exact_mod_cast hmul
    rw [hcap]
    push_cast
    have hws0 : (0 : ℚ) < (ws : ℚ) := by positivity
    exact mul_lt_mul_of_pos_right hqlt hws0

theorem window_cap_floor_at_one_witness :
    window_cap 1 1001 = Nat.max 1 (1000 / 1001 * 1)
    ∧ (1000 < 1001 → window_cap 1 1001 = 1 ∧
        (aggRun (Aggregator.new 1 1001 (1/2)) [none]).2.getD 0 none ≠ none)
    ∧ (1001 ≤ 1000 → ¬ ((1001 : ℕ) ∣ 1000) →
        ((window_cap 1 1001 : ℕ) : ℚ) < (1000 : ℚ) / (1001 : ℚ) * (1 : ℚ)) :=
  window_cap_floor_at_one 1 1001 (1/2) [none] 0 (by decide) (by decide) (by decide)

/-- C10 counterexample to the claim as stated: `tick_ms = 1001` does not
divide `1000`, yet the capacity (`1`) is NOT strictly smaller than the
real-valued `(1000/1001)·1 ≈ 0.999`. -/
theorem window_cap_floor_counterexample :
    window_cap 1 1001 = 1 ∧ ¬ ((1001 : ℕ) ∣ 1000) ∧
    ¬ (((window_cap 1 1001 : ℕ) : ℚ) < (1000 : ℚ) / (1001 : ℚ) * (1 : ℚ)) := by
  refine ⟨by decide, by decide, by decide⟩

/-! C9: hex round-trip. -/

theorem to_hex_data_cons (b : ℕ) (bs : List ℕ) :
    (to_hex (b :: bs)).data = hexChar (b / 16) :: hexChar (b % 16) :: (to_hex bs).data := rfl

theorem to_hex_length (bs : List ℕ) : (to_hex bs).length = 2 * bs.length := by
  induction bs with
  | nil => rfl
  | cons b bs ih =>
    have h1 : (to_hex (b :: bs)).length = (to_hex (b :: bs)).data.length := rfl
    have h2 : (to_hex bs).length = (to_hex bs).data.length := rfl
    rw [h1, to_hex_data_cons, List.length_cons, List.length_cons, ← h2, ih,
      List.length_cons]
    omega

theorem charToDigit16_hexChar : ∀ d, d < 16 → charToDigit16 (hexChar d) = some d := by decide

set_option maxRecDepth 4000 in
theorem hexPair_recompose : ∀ b, b < 256 → (b / 16) <<< 4 ||| b % 16 = b := by decide

theorem fromHexPairs_to_hex (bs : List ℕ) (hb : ∀ b ∈ bs, b < 256) :
    fromHexPairs (to_hex bs).data = some bs := by
  induction bs with
  | nil => rfl
  | cons b bs ih =>
    have hb0 : b < 256 := hb b (List.mem_cons_self b bs)
    have hdiv : b / 16 < 16 := by omega
    have hmod : b % 16 < 16 := by omega
    show fromHexPairs (hexChar (b / 16) :: hexChar (b % 16) :: (to_hex bs).data) = some (b :: bs)
    rw [fromHexPairs, charToDigit16_hexChar _ hdiv, charToDigit16_hexChar _ hmod,
      ih (fun x hx => hb x (List.mem_cons_of_mem _ hx))]
    show some (((b / 16) <<< 4 ||| b % 16) :: bs) = some (b :: bs)
    rw [hexPair_recompose b hb0]

/-- C9: `from_hex (to_hex bs) = Some bs` for every byte sequence. -/
theorem hex_roundtrip (bs : List ℕ) (hb : ∀ b ∈ bs, b < 256) :
    from_hex (to_hex bs) = some bs := by
  unfold from_hex
  rw [if_neg, fromHexPairs_to_hex bs hb]
  rw [to_hex_length]
  omega

theorem hex_roundtrip_witness :
    (∀ b ∈ [0, 255, 171, 16], b < 256) ∧
    from_hex (to_hex [0, 255, 171, 16]) = some [0, 255, 171, 16] :=
  ⟨by decide, hex_roundtrip [0, 255, 171, 16] (by decide)⟩

/-! C5: minimum dwell between hysteresis flips. -/

theorem hystStep_flip_spec (enter exit_f : ℚ) (dwell : ℕ) (st : HystState) (now value : ℚ)
    (h : (hystStep enter exit_f dwell st now value).2 = true) :
    (hystStep enter exit_f dwell st now value).1.lastFlip = now ∧
      st.lastFlip + (dwell : ℚ) ≤ now := by
  by_cases hc : hystWant enter exit_f st.present value ≠ st.present ∧
      (dwell : ℚ) ≤ now - st.lastFlip
  · unfold hystStep
    rw [if_pos hc]
    exact ⟨rfl, by linarith [hc.2]⟩
  · unfold hystStep at h
    rw [if_neg hc] at h
    exact Bool.noConfusion h

theorem hystStep_noflip_spec (enter exit_f : ℚ) (dwell : ℕ) (st : HystState) (now value : ℚ)
    (h : (hystStep enter exit_f dwell st now value).2 = false) :
    (hystStep enter exit_f dwell st now value).1 = st := by
  by_cases hc : hystWant enter exit_f st.present value ≠ st.present ∧
      (dwell : ℚ) ≤ now - st.lastFlip
  · unfold hystStep at h
    rw [if_pos hc] at h
    exact Bool.noConfusion h
  · unfold hystStep
    rw [if_neg hc]

theorem hystRun_chain (enter exit_f : ℚ) (dwell : ℕ) (events : List (ℚ × ℚ)) :
    ∀ st : HystState,
      List.Chain' (fun a b => a + (dwell : ℚ) ≤ b)
        (st.lastFlip :: (hystRun enter exit_f dwell st events).2) := by
  induction events with
  | nil => intro st; simp [hystRun]
  | cons e es ih =>
    intro st
    simp only [hystRun]
    rcases hb : (hystStep enter exit_f dwell st e.1 e.2).2 with _ | _
    · rw [cond_false]
      have hst := hystStep_noflip_spec enter exit_f dwell st e.1 e.2 hb
      rw [hst]
      exact ih st
    · rw [cond_true]
      have hsp := hystStep_flip_spec enter exit_f dwell st e.1 e.2 hb
      rw [List.chain'_cons]
      refine ⟨hsp.2, ?_⟩
      have := ih (hystStep enter exit_f dwell st e.1 e.2).1
      rwa [hsp.1] at this

/-- C5: consecutive flips of the hysteresis state machine are at least
`min_dwell_ms` apart (the chain starts at the initial `last_flip`), the
initial `last_flip` is `min_dwell_ms` in the past of `t0`, and at the very
first event ( any `now ≥ t0`) the dwell check never blocks: the step flips
exactly when the enter threshold is met. -/
theorem flips_separated_by_min_dwell (enter exit_f : ℚ) (dwell : ℕ) (t0 now value : ℚ)
    (events : List (ℚ × ℚ)) (hnow : t0 ≤ now) :
    (hystInit t0 dwell).lastFlip = t0 - (dwell : ℚ)
    ∧ List.Chain' (fun a b => a + (dwell : ℚ) ≤ b)
        ((t0 - (dwell : ℚ)) :: (hystRun enter exit_f dwell (hystInit t0 dwell) events).2)
    ∧ (hystStep enter exit_f dwell (hystInit t0 dwell) now value).2 = decide (enter ≤ value) := by
  refine ⟨rfl, ?_, ?_⟩
  · exact hystRun_chain enter exit_f dwell events (hystInit t0 dwell)
  · have hc : (dwell : ℚ) ≤ now - (hystInit t0 dwell).lastFlip := by
      show (dwell : ℚ) ≤ now - (t0 - (dwell : ℚ))
      linarith
    have hwant : hystWant enter exit_f (hystInit t0 dwell).present value =
        decide (enter ≤ value) := rfl
    have hpres : (hystInit t0 dwell).present = false := rfl
    rcases hd : decide (enter ≤ value) with _ | _
    · have hcond : ¬ (hystWant enter exit_f (hystInit t0 dwell).present value ≠
          (hystInit t0 dwell).present ∧ (dwell : ℚ) ≤ now - (hystInit t0 dwell).lastFlip) := by
        rw [hwant, hd, hpres]
        simp
      unfold hystStep
      rw [if_neg hcond]
    · have hcond : hystWant enter exit_f (hystInit t0 dwell).present value ≠
          (hystInit t0 dwell).present ∧ (dwell : ℚ) ≤ now - (hystInit t0 dwell).lastFlip := by
        refine ⟨?_, hc⟩
        rw [hwant, hd, hpres]
        simp
      unfold hystStep
      rw [if_pos hcond]

theorem flips_separated_by_min_dwell_witness :
    ((0 : ℚ) ≤ 0)
    ∧ ((hystInit 0 2).lastFlip = (0 : ℚ) - (2 : ℕ)
      ∧ List.Chain' (fun a b => a + ((2 : ℕ) : ℚ) ≤ b)
          (((0 : ℚ) - (2 : ℕ)) :: (hystRun (1/2) (1/2) 2 (hystInit 0 2) [(0, 1), (1, 0), (3, 0)]).2)
      ∧ (hystStep (1/2) (1/2) 2 (hystInit 0 2) 0 1).2 = decide ((1 : ℚ)/2 ≤ 1)) :=
  ⟨le_refl 0, flips_separated_by_min_dwell (1/2) (1/2) 2 0 0 1 [(0, 1), (1, 0), (3, 0)] (le_refl 0)⟩

/-! C1: what value the hysteresis compares. -/

theorem hystStep_present_target (enter exit_f : ℚ) (dwell : ℕ) (st : HystState)
    (now value : ℚ) :
    (hystStep enter exit_f dwell st now value).1.present =
      if (hystStep enter exit_f dwell st now value).2 then
        (if st.present then decide (exit_f ≤ value) else decide (enter ≤ value))
      else st.present := by
  unfold hystStep
  split
  · rfl
  · rfl

/-- C1 (amended): an accepted aggregate's `agree` is the fraction of
`Some` votes in the trimmed window, and a hysteresis flip sets the state
to the two-threshold target applied to the compared value — the agreement
in the gated path, but the analyzer confidence (not the agreement
fraction) in the presence path. -/
theorem hysteresis_compares_thresholds (config : Config) (ag : Aggregator)
    (vote : Option (ℚ × ℚ)) (agg : AggOut) (st : HystState) (now conf : ℚ)
    (h : (ag.push vote).2 = some agg) :
    agg.agree = (((ag.push vote).1.history.filterMap id).length : ℚ) / (ag.cap : ℚ)
    ∧ ((hystStep config.enter_frac config.exit_frac config.min_dwell_ms st now agg.agree).1.present
        = if (hystStep config.enter_frac config.exit_frac config.min_dwell_ms st now agg.agree).2
          then gatedWant config st.present agg.agree else st.present)
    ∧ presenceWant config st.present conf
        = if st.present then decide (config.exit_frac ≤ conf)
          else decide (config.enter_frac ≤ conf) := by
  refine ⟨?_, ?_, rfl⟩
  · have hpush : (ag.push vote).1.history = trimFront ag.cap (ag.history ++ [vote]) := rfl
    rw [hpush]
    have h2 : aggOutOf ag.cap ag.agg_frac (trimFront ag.cap (ag.history ++ [vote])) = some agg := h
    unfold aggOutOf at h2
    split at h2
    · exact Option.noConfusion h2
    · simp only [Option.some.injEq] at h2
      subst h2
      rfl
  · rw [hystStep_present_target]
    rfl

theorem hysteresis_compares_thresholds_witness :
    ((Aggregator.new 1 1000 (1/2)).push (some (1, 1))).2 = some ⟨true, some 1, 1, 1⟩
    ∧ ((⟨true, some 1, 1, 1⟩ : AggOut).agree =
        ((((Aggregator.new 1 1000 (1/2)).push (some (1, 1))).1.history.filterMap id).length : ℚ)
          / ((Aggregator.new 1 1000 (1/2)).cap : ℚ)
      ∧ ((hystStep cfgEx.enter_frac cfgEx.exit_frac cfgEx.min_dwell_ms ⟨false, 0⟩ 5000
            (⟨true, some 1, 1, 1⟩ : AggOut).agree).1.present
          = if (hystStep cfgEx.enter_frac cfgEx.exit_frac cfgEx.min_dwell_ms ⟨false, 0⟩ 5000
                (⟨true, some 1, 1, 1⟩ : AggOut).agree).2
            then gatedWant cfgEx false (⟨true, some 1, 1, 1⟩ : AggOut).agree else false)
      ∧ presenceWant cfgEx false (1/4)
          = if (false : Bool) then decide (cfgEx.exit_frac ≤ 1/4)
            else decide (cfgEx.enter_frac ≤ 1/4)) :=
  ⟨by decide,
   hysteresis_compares_thresholds cfgEx (Aggregator.new 1 1000 (1/2)) (some (1, 1))
     ⟨true, some 1, 1, 1⟩ ⟨false, 0⟩ 5000 (1/4) (by decide)⟩

/-- C1 counterexample to the claim as stated: in the presence path three
consecutive `Some` estimator votes make the window's agreement fraction
`3/3 = 1 ≥ enter_frac`, so the claimed rule `want = agreement ≥ enter_frac`
demands `want = true`; but the code drives the hysteresis with the
multi-peak analyzer's confidence, which is `0` here (every measurement's
strength `0.05` is below `strength_thr·0.5`), so the computed `want` is
`false`. -/
theorem hysteresis_agreement_counterexample :
    exAnalyzerOut = some ⟨false, 0, none, 0, 0, 3⟩
    ∧ presenceWant exCfgC1 false 0 = false
    ∧ gatedWant exCfgC1 false (3 / 3 : ℚ) = true := by
  refine ⟨by decide, by decide, by decide⟩

/-- C7 counterexample to the claim as stated: one stored song whose
fingerprint has a different band count gives every similarity `0`; with
`fp_thr = 0` and `fp_margin = 0` the claimed test `top ≥ fp_thr ∧
top − second ≥ fp_margin` holds, yet the code does not accept (its guard
also requires a non-empty best URL, i.e. a strictly positive top). -/
theorem arming_acceptance_counterexample :
    armAccept exLiveA [exSongMismatch] exCfgArm = false
    ∧ exCfgArm.fp_thr ≤ (armScan exLiveA [exSongMismatch]).1.2
    ∧ exCfgArm.fp_margin ≤
        (armScan exLiveA [exSongMismatch]).1.2 - (armScan exLiveA [exSongMismatch]).2 := by
  refine ⟨by decide, by decide, by decide⟩

/-! Estimator evaluation on all-zero frames.  The correlation and
conditioning stages act on 1024-sample frames, so the computations below
are carried out symbolically over `List.replicate`. -/

theorem zip_replicate_eq {α β : Type _} (x : α) (y : β) :
    ∀ (n m : ℕ), (List.replicate n x).zip (List.replicate m y) =
      List.replicate (min n m) (x, y) := by
  intro n
  induction n with
  | zero => intro m; simp
  | succ n ih =>
    intro m
    cases m with
    | zero => simp
    | succ m =>
      simp only [List.replicate_succ, List.zip_cons_cons, ih, Nat.succ_min_succ]

theorem conditioned_replicate_zero (sq : ℚ → ℚ) (n : ℕ) :
    conditioned sq (List.replicate n 0) n = List.replicate n 0 := by
  unfold conditioned
  rw [List.take_replicate, Nat.min_self]
  have hdc : dc_remove (List.replicate n (0 : ℚ)) = List.replicate n 0 := by
    unfold dc_remove
    simp [List.sum_replicate, List.map_replicate]
  rw [hdc]
  have hpre : preemph_diff (List.replicate n (0 : ℚ)) = List.replicate n 0 := by
    unfold preemph_diff
    rw [show ((0 : ℚ) :: List.replicate n 0) = List.replicate (n + 1) 0 from
      (List.replicate_succ 0 n).symm]
    rw [zip_replicate_eq]
    simp [List.map_replicate]
  rw [hpre]
  unfold l2norm
  simp [List.map_replicate, List.sum_replicate]

theorem corrAt_replicate_zero (sq : ℚ → ℚ) (m n k : ℕ) :
    corrAt sq (List.replicate m 0) (List.replicate m 0) n k = 0 := by
  unfold corrAt
  rw [List.take_replicate, List.drop_replicate, zip_replicate_eq]
  simp [List.map_replicate, List.sum_replicate]

theorem rmsQ_replicate_zero (n : ℕ) : rmsQ sqZero (List.replicate n 0) = 0 := by
  unfold rmsQ sqZero
  rfl

/-- On a silent frame pair the estimator reaches the final `some`: the
correlation sequence is identically zero, the first strict maximum never
moves, and the result is `(min 0 dist_max_m, 0)` for any `dist_max_m`. -/
theorem estimate_zeros_eval (dm : ℚ) :
    estimate_from_ref sqZero zeros1024 zeros1024 5 (cfgExD dm) = some (min 0 dm, 0) := by
  simp only [estimate_from_ref, zeros1024]
  rw [show commonLen (List.replicate 1024 (0:ℚ)) (List.replicate 1024 0) = 1024 from by
    simp only [commonLen, List.length_replicate, Nat.min_self]]
  rw [if_neg (by norm_num : ¬ ((1024:ℕ) < 1024))]
  rw [List.take_replicate, Nat.min_self, rmsQ_replicate_zero]
  rw [show (cfgExD dm).min_rms = 0 from rfl]
  rw [show (cfgExD dm).min_ref_rms = 0 from rfl]
  rw [if_neg (by norm_num : ¬ ((0:ℚ) < 0 ∧ (0:ℚ) < 0))]
  rw [show minEchoLag (cfgExD dm) 5 = minEchoLag cfgEx 5 from rfl,
    show minEchoLag cfgEx 5 = 0 from by decide]
  rw [show maxEchoLag (cfgExD dm) 5 = maxEchoLag cfgEx 5 from rfl,
    show maxEchoLag cfgEx 5 = 1 from by decide]
  rw [if_neg (by norm_num : ¬ ((1:ℕ) ≤ 0 ∨ (1024:ℕ) ≤ 1))]
  rw [show kmaxLag (cfgExD dm) 5 1024 = kmaxLag cfgEx 5 1024 from rfl,
    show kmaxLag cfgEx 5 1024 = 2 from by decide]
  rw [conditioned_replicate_zero]
  rw [show corrList sqZero (List.replicate 1024 (0:ℚ)) (List.replicate 1024 0) 1024 2 =
      List.replicate 3 0 from by
    unfold corrList
    rw [show List.range (2 + 1) = [0, 1, 2] from rfl]
    simp only [List.map_cons, List.map_nil, corrAt_replicate_zero]
    rfl]
  rw [show directPathLag (List.replicate 3 (0:ℚ)) 2 = 0 from by decide]
  rw [show (cfgExD dm).dist_max_m = dm from rfl]
  norm_num
  constructor
  · rw [show (bestFold (List.replicate 3 (0:ℚ)) (bandIdxList 0 1) ((0:ℕ), (-1:ℚ))).1 = 0 from
      by decide]
    norm_num
  · decide

/-! C2: range of the estimator's outputs. -/

theorem clampQ01_nonneg (x : ℚ) : 0 ≤ clampQ x 0 1 :=
  le_min (le_max_right x 0) (by norm_num)

theorem clampQ01_le_one (x : ℚ) : clampQ x 0 1 ≤ 1 := min_le_right _ _

set_option maxHeartbeats 1600000 in
/-- C2 (amended: requires `0 < sr` and `0 ≤ dist_max_m`, neither of which
the CLI enforces).  Whenever `estimate_from_ref` returns
`some (d, s)` under a positive sample rate and a non-negative
`dist_max_m`, the distance lies in `[0, dist_max_m]` and the strength in
`[0, 1]` (src/main.rs:186-200). -/
theorem echo_estimate_bounds (sq : ℚ → ℚ) (x_ref x_mic : List ℚ) (sr : ℚ)
    (cfg : Config) (d s : ℚ) (hsr : 0 < sr) (hdm : 0 ≤ cfg.dist_max_m)
    (h : estimate_from_ref sq x_ref x_mic sr cfg = some (d, s)) :
    0 ≤ d ∧ d ≤ cfg.dist_max_m ∧ 0 ≤ s ∧ s ≤ 1 := by
  simp only [estimate_from_ref] at h
  split_ifs at h
  all_goals
    rw [Option.some.injEq, Prod.mk.injEq] at h
    obtain ⟨hd, hs⟩ := h
    subst hd
    subst hs
  all_goals
    refine ⟨le_min (div_nonneg (mul_nonneg (div_nonneg (Nat.cast_nonneg _) hsr.le)
      (by norm_num)) (by norm_num)) hdm, min_le_right _ _, ?_, ?_⟩
  all_goals first
    | exact clampQ01_nonneg _
    | exact clampQ01_le_one _
    | exact mul_nonneg (clampQ01_nonneg _) (by norm_num)
    | exact mul_le_one (clampQ01_le_one _) (by norm_num) (by norm_num)

/-- Witness for C2: on silent 1024-sample frames at `sr = 5` with
`dist_max_m = 3/2` the estimator returns `some (0, 0)` and the bounds
hold. -/
theorem echo_estimate_bounds_witness :
    (0:ℚ) < 5 ∧ (0:ℚ) ≤ (cfgExD (3/2)).dist_max_m ∧
    estimate_from_ref sqZero zeros1024 zeros1024 5 (cfgExD (3/2)) = some (0, 0) ∧
    (0 ≤ (0:ℚ) ∧ (0:ℚ) ≤ (cfgExD (3/2)).dist_max_m ∧ 0 ≤ (0:ℚ) ∧ (0:ℚ) ≤ 1) := by
  have hdm : (0:ℚ) ≤ (cfgExD (3/2)).dist_max_m := by
    show (0:ℚ) ≤ 3/2
    norm_num
  have hest : estimate_from_ref sqZero zeros1024 zeros1024 5 (cfgExD (3/2)) = some (0, 0) := by
    rw [estimate_zeros_eval]
    decide
  exact ⟨by norm_num, hdm, hest,
    echo_estimate_bounds sqZero zeros1024 zeros1024 5 (cfgExD (3/2)) 0 0 (by norm_num) hdm hest⟩

/-- C2 counterexample to the claim as stated: with the CLI-reachable
`--dist-max-m -1` the estimator returns a negative distance on silent
frames, outside the claimed range `[0, dist_max_m]` read as containing
non-negative values (and `[0, -1]` is empty, so no reading satisfies the
claim). -/
theorem echo_estimate_bounds_counterexample :
    estimate_from_ref sqZero zeros1024 zeros1024 5 cfgNegDist = some (-1, 0) ∧
    ¬ ((0:ℚ) ≤ -1) := by
  constructor
  · exact (estimate_zeros_eval (-1)).trans (by decide)
  · norm_num

/-! C3: complete characterization of the estimator's `None` returns, and
symbolic evaluation of the estimator on the spike pair, which exercises
the undocumented fourth early return. -/

theorem zip_replicate_cons (x y : ℚ) (n : ℕ) :
    (List.replicate (n + 1) x).zip (y :: List.replicate (n + 1) x) =
      (x, y) :: List.replicate n (x, x) := by
  rw [List.replicate_succ, List.zip_cons_cons, ← List.replicate_succ,
    zip_replicate_eq, Nat.min_eq_left (Nat.le_succ n)]

theorem preemph_two_tail (e1 e2 : ℚ) (m : ℕ) :
    preemph_diff (e1 :: List.replicate (m + 1) e2) =
      e1 :: (e2 - e1) :: List.replicate m 0 := by
  unfold preemph_diff
  simp only [List.zip_cons_cons, zip_replicate_cons, List.map_cons, List.map_replicate,
    sub_zero, sub_self]

theorem preemph_mic_shape (a c : ℚ) (m : ℕ) :
    preemph_diff (a :: a :: c :: List.replicate (m + 1) a) =
      a :: 0 :: (c - a) :: (a - c) :: List.replicate m 0 := by
  unfold preemph_diff
  simp only [List.zip_cons_cons, zip_replicate_cons, List.map_cons, List.map_replicate,
    sub_zero, sub_self]

theorem dc_remove_one_tail (v d : ℚ) (k : ℕ) :
    dc_remove (v :: List.replicate k d) =
      (v - (v + k * d) / ((k + 1 : ℕ) : ℚ)) ::
        List.replicate k (d - (v + k * d) / ((k + 1 : ℕ) : ℚ)) := by
  unfold dc_remove
  simp only [List.sum_cons, List.sum_replicate, List.length_cons, List.length_replicate,
    nsmul_eq_mul, List.map_cons, List.map_replicate]

theorem dc_remove_three_tail (u v w d : ℚ) (k : ℕ) :
    dc_remove (u :: v :: w :: List.replicate k d) =
      (u - (u + (v + (w + k * d))) / ((k + 1 + 1 + 1 : ℕ) : ℚ)) ::
      (v - (u + (v + (w + k * d))) / ((k + 1 + 1 + 1 : ℕ) : ℚ)) ::
      (w - (u + (v + (w + k * d))) / ((k + 1 + 1 + 1 : ℕ) : ℚ)) ::
        List.replicate k (d - (u + (v + (w + k * d))) / ((k + 1 + 1 + 1 : ℕ) : ℚ)) := by
  unfold dc_remove
  simp only [List.sum_cons, List.sum_replicate, List.length_cons, List.length_replicate,
    nsmul_eq_mul, List.map_cons, List.map_replicate]

theorem condRef_eval : conditioned sqZero exSpikeRef 1024 = condA := by
  unfold conditioned exSpikeRef condA
  rw [show (1024:ℕ) = 1023 + 1 from rfl]
  rw [List.take_succ_cons, List.take_replicate, Nat.min_self]
  rw [dc_remove_one_tail]
  rw [show (1023:ℕ) = 1022 + 1 from rfl]
  rw [preemph_two_tail]
  simp only [l2norm, sqZero, List.map_cons, List.map_replicate]
  congr 1

theorem condMic_eval : conditioned sqZero exSpikeMic 1024 = condB := by
  unfold conditioned exSpikeMic condB
  rw [show (1024:ℕ) = 1021 + 1 + 1 + 1 from rfl]
  rw [List.take_succ_cons, List.take_succ_cons, List.take_succ_cons,
    List.take_replicate, Nat.min_self]
  rw [dc_remove_three_tail]
  rw [show (1021:ℕ) = 1020 + 1 from rfl]
  rw [preemph_mic_shape]
  simp only [l2norm, sqZero, List.map_cons, List.map_replicate]
  congr 1

theorem corrSpike_0 : corrAt sqZero condA condB 1024 0 =
    -1023 * 10 ^ 27 / 1048576 := by
  unfold corrAt condA condB
  rw [show (1024 - 0 : ℕ) = 1022 + 1 + 1 from rfl]
  rw [List.take_succ_cons, List.take_succ_cons, List.take_replicate, Nat.min_self]
  rw [List.drop_zero]
  rw [List.zip_cons_cons, List.zip_cons_cons]
  rw [show (1022:ℕ) = 1020 + 1 + 1 from rfl]
  rw [List.replicate_succ, List.replicate_succ]
  rw [List.zip_cons_cons, List.zip_cons_cons, zip_replicate_eq, Nat.min_self]
  simp only [sqZero, List.map_cons, List.map_replicate, List.sum_cons, List.sum_replicate,
    nsmul_eq_mul]
  norm_num

theorem corrSpike_1 : corrAt sqZero condA condB 1024 1 = -(10 ^ 27) := by
  unfold corrAt condA condB
  rw [show (1024 - 1 : ℕ) = 1021 + 1 + 1 from rfl]
  rw [List.take_succ_cons, List.take_succ_cons, List.take_replicate]
  rw [show (min 1021 1022 : ℕ) = 1020 + 1 from rfl]
  rw [show List.drop 1 ((-(1000000000/1024) : ℚ) :: 0 :: 1000000000 ::
      (-1000000000 : ℚ) :: List.replicate 1020 0) =
      (0 : ℚ) :: 1000000000 :: (-1000000000 : ℚ) :: List.replicate 1020 0 from rfl]
  rw [List.zip_cons_cons, List.zip_cons_cons]
  rw [List.replicate_succ]
  rw [List.zip_cons_cons, zip_replicate_eq, Nat.min_self]
  simp only [sqZero, List.map_cons, List.map_replicate, List.sum_cons, List.sum_replicate,
    nsmul_eq_mul]
  norm_num

theorem corrSpike_2 : corrAt sqZero condA condB 1024 2 = 2047 * 10 ^ 27 / 1024 := by
  unfold corrAt condA condB
  rw [show (1024 - 2 : ℕ) = 1020 + 1 + 1 from rfl]
  rw [List.take_succ_cons, List.take_succ_cons, List.take_replicate]
  rw [show (min 1020 1022 : ℕ) = 1020 from rfl]
  rw [show List.drop 2 ((-(1000000000/1024) : ℚ) :: 0 :: 1000000000 ::
      (-1000000000 : ℚ) :: List.replicate 1020 0) =
      (1000000000 : ℚ) :: (-1000000000 : ℚ) :: List.replicate 1020 0 from rfl]
  rw [List.zip_cons_cons, List.zip_cons_cons, zip_replicate_eq, Nat.min_self]
  simp only [sqZero, List.map_cons, List.map_replicate, List.sum_cons, List.sum_replicate,
    nsmul_eq_mul]
  norm_num

theorem corrSpike_eval : corrList sqZero condA condB 1024 2 = rsSpike := by
  unfold corrList rsSpike
  rw [show List.range (2 + 1) = [0, 1, 2] from rfl]
  rw [List.map_cons, List.map_cons, List.map_cons, List.map_nil]
  rw [corrSpike_0, corrSpike_1, corrSpike_2]

theorem commonLen_spike : commonLen exSpikeRef exSpikeMic = 1024 := by
  simp only [commonLen, exSpikeRef, exSpikeMic, List.length_cons, List.length_replicate]
  norm_num

/-- On the spike pair the estimator's direct-path lag lands on the last
searched lag (`k0 = kmax = 2`), emptying the echo band, so it returns
`none` through the fourth early return. -/
theorem estimate_spike_none :
    estimate_from_ref sqZero exSpikeRef exSpikeMic 5 cfgEx = none := by
  simp only [estimate_from_ref]
  rw [commonLen_spike]
  rw [if_neg (by norm_num : ¬ ((1024:ℕ) < 1024))]
  rw [show rmsQ sqZero (exSpikeMic.take 1024) = 0 from rfl,
    show rmsQ sqZero (exSpikeRef.take 1024) = 0 from rfl]
  rw [show cfgEx.min_rms = 0 from rfl, show cfgEx.min_ref_rms = 0 from rfl]
  rw [if_neg (by norm_num : ¬ ((0:ℚ) < 0 ∧ (0:ℚ) < 0))]
  rw [show minEchoLag cfgEx 5 = 0 from by decide,
    show maxEchoLag cfgEx 5 = 1 from by decide]
  rw [if_neg (by norm_num : ¬ ((1:ℕ) ≤ 0 ∨ (1024:ℕ) ≤ 1))]
  rw [show kmaxLag cfgEx 5 1024 = 2 from by decide]
  rw [condRef_eval, condMic_eval, corrSpike_eval]
  rw [show directPathLag rsSpike 2 = 2 from by decide]
  rw [if_pos (by decide : (min (2 + 1) 2 : ℕ) ≤ 2 + 0)]

/-- C3 (amended).  The estimator (a total function, so it never raises)
returns `none` if and only if one of FOUR conditions holds: the three the
spec lists — short common frame, both RMS gates failing, degenerate echo
configuration (`max_echo ≤ min_echo` or `max_echo ≥ N`) — or the fourth,
undocumented one: the echo search band
`[k0 + min_echo, min(k0 + max_echo, kmax)]` is empty because the
direct-path peak `k0` sits too close to `kmax` (src/main.rs:156-160). -/
theorem estimate_none_characterization (sq : ℚ → ℚ) (x_ref x_mic : List ℚ)
    (sr : ℚ) (cfg : Config) :
    estimate_from_ref sq x_ref x_mic sr cfg = none ↔
      commonLen x_ref x_mic < 1024 ∨ rmsGateFails sq x_ref x_mic cfg ∨
      echoConfigDegenerate x_ref x_mic sr cfg ∨ echoBandEmpty sq x_ref x_mic sr cfg := by
  simp only [estimate_from_ref]
  split_ifs
  all_goals first
    | exact iff_of_true rfl (Or.inl (by assumption))
    | exact iff_of_true rfl (Or.inr (Or.inl (by assumption)))
    | exact iff_of_true rfl (Or.inr (Or.inr (Or.inl (by assumption))))
    | exact iff_of_true rfl (Or.inr (Or.inr (Or.inr (by assumption))))
    | exact iff_of_false (by simp)
        (fun h => h.elim (by assumption) fun hh => hh.elim (by assumption)
          fun hhh => hhh.elim (by assumption) (by assumption))

/-- C3 counterexample to the claim as stated ("returns None exactly in the
specified degenerate cases"): the spike pair yields `none` although none
of the three specified conditions holds. -/
theorem estimate_none_counterexample :
    estimate_from_ref sqZero exSpikeRef exSpikeMic 5 cfgEx = none ∧
    ¬ (commonLen exSpikeRef exSpikeMic < 1024) ∧
    ¬ rmsGateFails sqZero exSpikeRef exSpikeMic cfgEx ∧
    ¬ echoConfigDegenerate exSpikeRef exSpikeMic 5 cfgEx := by
  refine ⟨estimate_spike_none, ?_, ?_, ?_⟩
  · rw [commonLen_spike]
    norm_num
  · intro h
    exact absurd h.1 (by norm_num : ¬ ((0:ℚ) < 0))
  · intro h
    rcases h with h | h
    · rw [show maxEchoLag cfgEx 5 = 1 from by decide,
        show minEchoLag cfgEx 5 = 0 from by decide] at h
      exact absurd h (by norm_num)
    · rw [commonLen_spike, show maxEchoLag cfgEx 5 = 1 from by decide] at h
      exact absurd h (by norm_num)

/-! C6: segment gating of aligned gated ticks. -/

/-- C6.  Once aligned, a gated tick's vote: if the song clock lies outside
every widened segment `[start - guard_s, end + guard_s]`, the tick pushes
`None` into the aggregator; if it lies inside one and the frame snapshots
are complete, the tick pushes exactly the qualified result of the presence
estimator (gated.rs:405-491). -/
theorem gated_segment_gating (sq : ℚ → ℚ) (config : Config) (segs : List (ℚ × ℚ))
    (t_song : ℚ) (ref_frame mic_frame : List ℚ) (analysis_len : ℕ) (sr : ℚ) :
    (insideSegs segs config.guard_s t_song = false →
      gatedTickVote sq config segs t_song ref_frame mic_frame analysis_len sr = none) ∧
    (insideSegs segs config.guard_s t_song = true →
      mic_frame.length = analysis_len ∧ ref_frame.length = analysis_len →
      gatedTickVote sq config segs t_song ref_frame mic_frame analysis_len sr =
        qualifiedVote config (estimate_from_ref sq ref_frame mic_frame sr config)) := by
  constructor
  · intro h
    simp [gatedTickVote, h]
  · intro h hlen
    simp [gatedTickVote, h, hlen]

/-- Witness for C6 at `segs = [(20, 25)]`, `guard_s = 1/2`: the tick at
song clock `100` (outside) pushes `None`; the tick at `19.5` (the widened
left edge) pushes the estimator's qualified vote. -/
theorem gated_segment_gating_witness :
    (insideSegs [((20:ℚ), 25)] cfgEx.guard_s 100 = false ∧
      gatedTickVote sqZero cfgEx [(20, 25)] 100 zeros1024 zeros1024 1024 5 = none) ∧
    (insideSegs [((20:ℚ), 25)] cfgEx.guard_s (39/2) = true ∧
      gatedTickVote sqZero cfgEx [(20, 25)] (39/2) zeros1024 zeros1024 1024 5 =
        qualifiedVote cfgEx (estimate_from_ref sqZero zeros1024 zeros1024 5 cfgEx)) := by
  have hout : insideSegs [((20:ℚ), 25)] cfgEx.guard_s 100 = false := by decide
  have hin : insideSegs [((20:ℚ), 25)] cfgEx.guard_s (39/2) = true := by decide
  have hlen : zeros1024.length = 1024 := by
    simp only [zeros1024, List.length_replicate]
  constructor
  · exact ⟨hout,
      (gated_segment_gating sqZero cfgEx [(20, 25)] 100 zeros1024 zeros1024 1024 5).1 hout⟩
  · exact ⟨hin,
      (gated_segment_gating sqZero cfgEx [(20, 25)] (39/2) zeros1024 zeros1024 1024 5).2
        hin ⟨hlen, hlen⟩⟩

/-! C7: arming acceptance and clock alignment. -/

theorem armScan_url_invariant (live : Fingerprint) :
    ∀ (songs : List SongWindows) (acc : (String × ℚ) × ℚ),
      (songs.foldl
        (fun acc s =>
          let sim := fp_similarity live s.fp
          if acc.1.2 < sim then ((s.url, sim), acc.1.2)
          else if acc.2 < sim then (acc.1, sim) else acc) acc).1.1 = acc.1.1 ∨
      ∃ s ∈ songs,
        s.url = (songs.foldl
          (fun acc s =>
            let sim := fp_similarity live s.fp
            if acc.1.2 < sim then ((s.url, sim), acc.1.2)
            else if acc.2 < sim then (acc.1, sim) else acc) acc).1.1 := by
  intro songs
  induction songs with
  | nil => intro acc; exact Or.inl rfl
  | cons a t ih =>
    intro acc
    rw [List.foldl_cons]
    rcases ih (if acc.1.2 < fp_similarity live a.fp
        then ((a.url, fp_similarity live a.fp), acc.1.2)
        else if acc.2 < fp_similarity live a.fp
        then (acc.1, fp_similarity live a.fp) else acc) with h | h
    · rw [h]
      split_ifs with h1 h2
      · exact Or.inr ⟨a, List.mem_cons_self a t, rfl⟩
      · exact Or.inl rfl
      · exact Or.inl rfl
    · obtain ⟨s, hs, hurl⟩ := h
      exact Or.inr ⟨s, List.mem_cons_of_mem a hs, hurl⟩

/-- The best URL reported by the arming scan, when non-empty, is the URL
of one of the stored songs. -/
theorem armScan_url_mem (live : Fingerprint) (songs : List SongWindows)
    (h : (armScan live songs).1.1 ≠ "") :
    ∃ s ∈ songs, s.url = (armScan live songs).1.1 := by
  rcases armScan_url_invariant live songs (("", 0), 0) with h0 | h0
  · exact absurd h0 h
  · exact h0

/-- C7 (amended: acceptance additionally requires a non-empty best URL,
i.e. some stored song must have strictly positive similarity; gated.rs:365).
Alignment is accepted iff the best URL is non-empty, `top ≥ fp_thr` and
`top − second ≥ fp_margin`; on acceptance the virtual clock origin becomes
`now − offset_s` of a stored song carrying the matched URL
(gated.rs:366-373). -/
theorem arming_acceptance_alignment (live : Fingerprint) (songs : List SongWindows)
    (config : Config) (now : ℚ) :
    (armAccept live songs config = true ↔
      (armScan live songs).1.1 ≠ "" ∧ config.fp_thr ≤ (armScan live songs).1.2 ∧
        config.fp_margin ≤ (armScan live songs).1.2 - (armScan live songs).2) ∧
    (armAccept live songs config = true →
      ∃ song ∈ songs, song.url = (armScan live songs).1.1 ∧
        armAlign live songs config now =
          some (song.url, now - song.fp.offset_s, song.fp.offset_s)) := by
  constructor
  · unfold armAccept
    simp [Bool.and_eq_true, decide_eq_true_eq, and_assoc]
  · intro hacc
    have hurl : (armScan live songs).1.1 ≠ "" := by
      unfold armAccept at hacc
      simp only [Bool.and_eq_true, decide_eq_true_eq] at hacc
      exact hacc.1.1
    obtain ⟨s, hs, hsurl⟩ := armScan_url_mem live songs hurl
    have hfind : ∃ song, songs.find?
        (fun s => decide (s.url = (armScan live songs).1.1)) = some song := by
      have : (songs.find? (fun s => decide (s.url = (armScan live songs).1.1))).isSome := by
        rw [List.find?_isSome]
        exact ⟨s, hs, by simp [hsurl]⟩
      exact Option.isSome_iff_exists.mp this
    obtain ⟨song, hsong⟩ := hfind
    have hmem : song ∈ songs := List.mem_of_find?_eq_some hsong
    have hsongurl : song.url = (armScan live songs).1.1 := by
      have := List.find?_some hsong
      simpa using this
    refine ⟨song, hmem, hsongurl, ?_⟩
    unfold armAlign
    rw [if_pos hacc, hsong]

/-- Witness for C7: a single stored song whose fingerprint matches the
live one exactly (`top = 1`, `second = 0`) is accepted under the CLI
default thresholds, and the clock origin becomes `now − 12` for the
fingerprint taken at offset 12 s. -/
theorem arming_acceptance_alignment_witness :
    armAccept exLiveA [exSongA] cfgEx = true ∧
    (∃ song ∈ [exSongA], song.url = (armScan exLiveA [exSongA]).1.1 ∧
      armAlign exLiveA [exSongA] cfgEx 100 =
        some (song.url, 100 - song.fp.offset_s, song.fp.offset_s)) := by
  have hacc : armAccept exLiveA [exSongA] cfgEx = true := by decide
  exact ⟨hacc, (arming_acceptance_alignment exLiveA [exSongA] cfgEx 100).2 hacc⟩

/-! C8: fingerprint self-similarity. -/

theorem ratRoundAway_natCast (j : ℕ) : ratRoundAway (j : ℚ) = j := by
  unfold ratRoundAway
  rw [if_pos (by positivity : (0:ℚ) ≤ (j:ℚ))]
  apply Int.floor_eq_iff.mpr
  constructor
  · push_cast
    linarith
  · push_cast
    linarith

theorem ratRoundAway_add_small (j : ℕ) (q : ℚ) (h1 : -(1/2) < q) (h2 : q < 1/2) :
    ratRoundAway ((j:ℚ) + q) = j := by
  unfold ratRoundAway
  by_cases h0 : 0 ≤ (j:ℚ) + q
  · rw [if_pos h0]
    apply Int.floor_eq_iff.mpr
    constructor
    · push_cast
      linarith
    · push_cast
      linarith
  · rw [if_neg h0]
    have hj0 : j = 0 := by
      by_contra hne
      have h1j : (1:ℚ) ≤ (j:ℚ) := by exact_mod_cast Nat.one_le_iff_ne_zero.mpr hne
      have := not_le.mp h0
      linarith
    subst hj0
    have hqneg : q < 0 := by
      have := not_le.mp h0
      push_cast at this
      linarith
    simp only [Nat.cast_zero, zero_add]
    have hfl : ⌊-q + 1/2⌋ = 0 := by
      apply Int.floor_eq_iff.mpr
      constructor
      · push_cast
        linarith
      · push_cast
        linarith
    rw [hfl]
    simp

theorem ratRoundAway_sub_half (j : ℕ) (hj : 1 ≤ j) :
    ratRoundAway ((j:ℚ) - 1/2) = j := by
  have h1j : (1:ℚ) ≤ (j:ℚ) := by exact_mod_cast hj
  unfold ratRoundAway
  rw [if_pos (by linarith)]
  rw [show (j:ℚ) - 1/2 + 1/2 = (j:ℚ) by ring]
  exact Int.floor_natCast j

theorem ratRoundAway_neg_half : ratRoundAway (-(1/2) : ℚ) = -1 := by
  unfold ratRoundAway
  rw [if_neg (by norm_num)]
  rw [show -(-(1/2):ℚ) + 1/2 = 1 by norm_num]
  rw [Int.floor_one]

theorem foldl_diag (p : ℕ → Prop) [DecidablePred p] :
    ∀ (l : List ℕ) (x : ℕ),
      ∃ c, l.foldl (fun ht j => if p j then (ht.1 + 1, ht.2 + 1) else ht) (x, x) = (c, c) ∧
        x ≤ c ∧ ((∃ j ∈ l, p j) → x < c) := by
  intro l
  induction l with
  | nil =>
    intro x
    exact ⟨x, rfl, le_rfl, fun ⟨j, hj, _⟩ => absurd hj (List.not_mem_nil j)⟩
  | cons a t ih =>
    intro x
    by_cases ha : p a
    · obtain ⟨c, heq, hle, _⟩ := ih (x + 1)
      refine ⟨c, ?_, by omega, fun _ => by omega⟩
      rw [List.foldl_cons]
      dsimp only
      rw [if_pos ha]
      exact heq
    · obtain ⟨c, heq, hle, hstrict⟩ := ih x
      refine ⟨c, ?_, hle, ?_⟩
      · rw [List.foldl_cons]
        dsimp only
        rw [if_neg ha]
        exact heq
      · rintro ⟨j, hj, hp⟩
        rcases List.mem_cons.mp hj with rfl | hj'
        · exact absurd hp ha
        · exact hstrict ⟨j, hj', hp⟩

theorem foldl_le_preserve (f : ℕ × ℕ → ℕ → ℕ × ℕ)
    (hf : ∀ ht j, ht.1 ≤ ht.2 → (f ht j).1 ≤ (f ht j).2) :
    ∀ (l : List ℕ) (ht : ℕ × ℕ), ht.1 ≤ ht.2 → (l.foldl f ht).1 ≤ (l.foldl f ht).2 := by
  intro l
  induction l with
  | nil => intro ht h; exact h
  | cons a t ih =>
    intro ht h
    rw [List.foldl_cons]
    exact ih _ (hf ht a h)

/-- In `simCounts` every sample increments `total` at least as often as
`hits`: the reported ratio never exceeds one. -/
theorem simCounts_hits_le (a b : Fingerprint) (step tc lag : ℚ) :
    (simCounts a b step tc lag).1 ≤ (simCounts a b step tc lag).2 := by
  unfold simCounts
  apply foldl_le_preserve
  · intro ht j h
    dsimp only
    split_ifs <;> omega
  · exact le_rfl

theorem simCounts_self_diagA (a : Fingerprint) (hhop : 0 < a.hop_s) (lag : ℚ)
    (h1 : -(a.hop_s/2) < lag) (h2 : lag < a.hop_s/2) (tc : ℚ)
    (hnT : 0 < stepCount 0 (tc + 1/1000000) a.hop_s) (hL : 0 < a.bins.length) :
    ∃ c, simCounts a a a.hop_s tc lag = (c, c) ∧ 0 < c := by
  have hne : a.hop_s ≠ 0 := ne_of_gt hhop
  unfold simCounts
  have hfun : (fun (ht : ℕ × ℕ) (j : ℕ) =>
      let t : ℚ := (j : ℚ) * a.hop_s
      let ia := ratRoundAway (t / a.hop_s)
      let ib := ratRoundAway ((t + lag) / a.hop_s)
      if 0 ≤ ia ∧ 0 ≤ ib then
        if ia.toNat < a.bins.length ∧ ib.toNat < a.bins.length then
          if a.bins.getD ia.toNat 0 = a.bins.getD ib.toNat 0
          then (ht.1 + 1, ht.2 + 1) else (ht.1, ht.2 + 1)
        else ht
      else ht) =
      (fun (ht : ℕ × ℕ) (j : ℕ) =>
        if j < a.bins.length then (ht.1 + 1, ht.2 + 1) else ht) := by
    funext ht j
    have hia : ratRoundAway ((j : ℚ) * a.hop_s / a.hop_s) = (j : ℤ) := by
      rw [mul_div_cancel_right₀ _ hne]
      exact ratRoundAway_natCast j
    have hq1 : -(1/2 : ℚ) < lag / a.hop_s := by
      rw [lt_div_iff hhop]
      linarith
    have hq2 : lag / a.hop_s < 1/2 := by
      rw [div_lt_iff hhop]
      linarith
    have harg : ((j : ℚ) * a.hop_s + lag) / a.hop_s = (j : ℚ) + lag / a.hop_s := by
      rw [add_div, mul_div_cancel_right₀ _ hne]
    have hib : ratRoundAway (((j : ℚ) * a.hop_s + lag) / a.hop_s) = (j : ℤ) := by
      rw [harg]
      exact ratRoundAway_add_small j _ hq1 hq2
    simp only [hia, hib]
    rw [if_pos ⟨Int.natCast_nonneg j, Int.natCast_nonneg j⟩]
    rw [Int.toNat_natCast]
    rw [if_true]
    by_cases hj : j < a.bins.length
    · rw [if_pos ⟨hj, hj⟩, if_pos hj]
    · rw [if_neg (fun hc => hj hc.1), if_neg hj]
  rw [hfun]
  obtain ⟨c, heq, _, hstrict⟩ := foldl_diag (fun j => j < a.bins.length)
    (List.range (stepCount 0 (tc + 1/1000000) a.hop_s)) 0
  exact ⟨c, heq, hstrict ⟨0, List.mem_range.mpr hnT, hL⟩⟩

theorem simCounts_self_diagB (a : Fingerprint) (hhop : 0 < a.hop_s) (tc : ℚ)
    (hnT : 2 ≤ stepCount 0 (tc + 1/1000000) a.hop_s) (hL : 2 ≤ a.bins.length) :
    ∃ c, simCounts a a a.hop_s tc (-(a.hop_s/2)) = (c, c) ∧ 0 < c := by
  have hne : a.hop_s ≠ 0 := ne_of_gt hhop
  unfold simCounts
  have hfun : (fun (ht : ℕ × ℕ) (j : ℕ) =>
      let t : ℚ := (j : ℚ) * a.hop_s
      let ia := ratRoundAway (t / a.hop_s)
      let ib := ratRoundAway ((t + -(a.hop_s/2)) / a.hop_s)
      if 0 ≤ ia ∧ 0 ≤ ib then
        if ia.toNat < a.bins.length ∧ ib.toNat < a.bins.length then
          if a.bins.getD ia.toNat 0 = a.bins.getD ib.toNat 0
          then (ht.1 + 1, ht.2 + 1) else (ht.1, ht.2 + 1)
        else ht
      else ht) =
      (fun (ht : ℕ × ℕ) (j : ℕ) =>
        if 1 ≤ j ∧ j < a.bins.length then (ht.1 + 1, ht.2 + 1) else ht) := by
    funext ht j
    have hia : ratRoundAway ((j : ℚ) * a.hop_s / a.hop_s) = (j : ℤ) := by
      rw [mul_div_cancel_right₀ _ hne]
      exact ratRoundAway_natCast j
    by_cases hj1 : 1 ≤ j
    · have harg : ((j : ℚ) * a.hop_s + -(a.hop_s/2)) / a.hop_s = (j : ℚ) - 1/2 := by
        rw [div_eq_iff hne]
        ring
      have hib : ratRoundAway (((j : ℚ) * a.hop_s + -(a.hop_s/2)) / a.hop_s) = (j : ℤ) := by
        rw [harg]
        exact ratRoundAway_sub_half j hj1
      simp only [hia, hib]
      rw [if_pos ⟨Int.natCast_nonneg j, Int.natCast_nonneg j⟩]
      rw [Int.toNat_natCast]
      rw [if_true]
      by_cases hj : j < a.bins.length
      · rw [if_pos ⟨hj, hj⟩, if_pos ⟨hj1, hj⟩]
      · rw [if_neg (fun hc => hj hc.1), if_neg (fun hc => hj hc.2)]
    · have hj0 : (j : ℚ) = 0 := by
        have : j = 0 := by omega
        exact_mod_cast this
      have hargz : ((j : ℚ) * a.hop_s + -(a.hop_s/2)) / a.hop_s = -(1/2 : ℚ) := by
        rw [hj0, div_eq_iff hne]
        ring
      have hib : ratRoundAway (((j : ℚ) * a.hop_s + -(a.hop_s/2)) / a.hop_s) = -1 := by
        rw [hargz]
        exact ratRoundAway_neg_half
      simp only [hia, hib]
      rw [if_neg (fun hc => absurd hc.2 (by norm_num))]
      rw [if_neg (fun hc => hj1 hc.1)]
  rw [hfun]
  obtain ⟨c, heq, _, hstrict⟩ := foldl_diag (fun j => 1 ≤ j ∧ j < a.bins.length)
    (List.range (stepCount 0 (tc + 1/1000000) a.hop_s)) 0
  exact ⟨c, heq, hstrict ⟨1, List.mem_range.mpr (by omega), le_rfl, by omega⟩⟩

/-- The inner sampling loop takes at least one sample per stored bin. -/
theorem stepCount_inner_ge (a : Fingerprint) (hhop : 0 < a.hop_s) :
    a.bins.length ≤
      stepCount 0 (((a.bins.length - 1 : ℕ) : ℚ) * a.hop_s + 1/1000000) a.hop_s := by
  unfold stepCount
  rw [if_neg (not_le.mpr hhop)]
  have hfloor : ((a.bins.length - 1 : ℕ) : ℤ) ≤
      ⌊((((a.bins.length - 1 : ℕ) : ℚ) * a.hop_s + 1/1000000) - 0) / a.hop_s⌋ := by
    rw [Int.le_floor, sub_zero, le_div_iff hhop]
    push_cast
    linarith
  omega

theorem foldl_best_stays_one (F : ℕ → ℕ × ℕ) (hF : ∀ i, (F i).1 ≤ (F i).2) :
    ∀ l : List ℕ,
      l.foldl (fun (best : ℚ) i => if 0 < (F i).2 ∧ best < ((F i).1 : ℚ) / ((F i).2 : ℚ)
        then ((F i).1 : ℚ) / ((F i).2 : ℚ) else best) 1 = 1 := by
  intro l
  induction l with
  | nil => rfl
  | cons a t ih =>
    rw [List.foldl_cons]
    have hle : ((F a).1 : ℚ) / ((F a).2 : ℚ) ≤ 1 := by
      by_cases h : 0 < (F a).2
      · rw [div_le_one (by exact_mod_cast h)]
        exact_mod_cast hF a
      · have hz : (F a).2 = 0 := by omega
        rw [hz]
        norm_num
    rw [if_neg (fun hc => absurd hc.2 (not_lt.mpr hle))]
    exact ih

theorem foldl_best_reach_one (F : ℕ → ℕ × ℕ) (hF : ∀ i, (F i).1 ≤ (F i).2) :
    ∀ (l : List ℕ) (b0 : ℚ), 0 ≤ b0 → b0 ≤ 1 →
      (∃ i ∈ l, (F i).1 = (F i).2 ∧ 0 < (F i).2) →
      l.foldl (fun (best : ℚ) i => if 0 < (F i).2 ∧ best < ((F i).1 : ℚ) / ((F i).2 : ℚ)
        then ((F i).1 : ℚ) / ((F i).2 : ℚ) else best) b0 = 1 := by
  intro l
  induction l with
  | nil =>
    rintro b0 _ _ ⟨i, hi, _⟩
    exact absurd hi (List.not_mem_nil i)
  | cons a t ih =>
    rintro b0 h0 h1 ⟨i, hi, hgood⟩
    rw [List.foldl_cons]
    rcases List.mem_cons.mp hi with rfl | hi'
    · have hra : ((F i).1 : ℚ) / ((F i).2 : ℚ) = 1 := by
        rw [hgood.1]
        exact div_self (Nat.cast_ne_zero.mpr hgood.2.ne')
      have hstep : (if 0 < (F i).2 ∧ b0 < ((F i).1 : ℚ) / ((F i).2 : ℚ)
          then ((F i).1 : ℚ) / ((F i).2 : ℚ) else b0) = 1 := by
        by_cases hb : b0 < 1
        · rw [if_pos ⟨hgood.2, by rw [hra]; exact hb⟩, hra]
        · have hbeq : b0 = 1 := le_antisymm h1 (not_lt.mp hb)
          rw [if_neg (fun hc => hb (by rw [← hra]; exact hc.2)), hbeq]
      rw [hstep]
      exact foldl_best_stays_one F hF t
    · have hnn : 0 ≤ (if 0 < (F a).2 ∧ b0 < ((F a).1 : ℚ) / ((F a).2 : ℚ)
          then ((F a).1 : ℚ) / ((F a).2 : ℚ) else b0) := by
        split_ifs with hc
        · positivity
        · exact h0
      have hle1 : (if 0 < (F a).2 ∧ b0 < ((F a).1 : ℚ) / ((F a).2 : ℚ)
          then ((F a).1 : ℚ) / ((F a).2 : ℚ) else b0) ≤ 1 := by
        split_ifs with hc
        · rw [div_le_one (by exact_mod_cast hc.1)]
          exact_mod_cast hF a
        · exact h1
      exact ih _ hnn hle1 ⟨i, hi', hgood⟩

/-- C8 (amended: requires a strictly positive hop and at least two bins;
a single-bin fingerprint has zero common duration and similarity `0`).
The fingerprint similarity of such a fingerprint with itself is exactly
`1` (src/main.rs:1542-1594): some swept lag rounds every sampled index to
itself. -/
theorem fp_self_similarity_one (a : Fingerprint) (hhop : 0 < a.hop_s)
    (hlen : 2 ≤ a.bins.length) : fp_similarity a a = 1 := by
  have hne : a.hop_s ≠ 0 := ne_of_gt hhop
  have hbins : a.bins ≠ [] := by
    intro h
    rw [h] at hlen
    simp at hlen
  have hL1 : 1 ≤ a.bins.length - 1 := by omega
  have htc : (0:ℚ) < ((a.bins.length - 1 : ℕ) : ℚ) * a.hop_s :=
    mul_pos (by exact_mod_cast hL1) hhop
  have hinner : 2 ≤ stepCount 0 (((a.bins.length - 1 : ℕ) : ℚ) * a.hop_s + 1/1000000)
      a.hop_s := le_trans hlen (stepCount_inner_ge a hhop)
  unfold fp_similarity
  rw [if_neg (by simp : ¬ (a.fp_type ≠ a.fp_type ∨ a.bands ≠ a.bands))]
  rw [if_neg (by simp [hbins] : ¬ (a.bins = [] ∨ a.bins = []))]
  simp only [min_self]
  rw [if_neg (not_le.mpr htc)]
  refine foldl_best_reach_one
    (fun i => simCounts a a a.hop_s (((a.bins.length - 1 : ℕ) : ℚ) * a.hop_s)
      (-(1/2) + (i:ℚ) * a.hop_s))
    (fun i => simCounts_hits_le a a _ _ _) _ 0 le_rfl zero_le_one ?_
  have hfl0 : (0:ℤ) ≤ ⌊1/(2*a.hop_s) + 1/2⌋ := Int.floor_nonneg.mpr (by positivity)
  obtain ⟨I, hub, hlb⟩ : ∃ I : ℕ, ((I:ℚ) ≤ 1/(2*a.hop_s) + 1/2 ∧
      1/(2*a.hop_s) + 1/2 - 1 < (I:ℚ)) := by
    refine ⟨(⌊1/(2*a.hop_s) + 1/2⌋).toNat, ?_, ?_⟩
    · have h := Int.floor_le (1/(2*a.hop_s) + 1/2)
      rw [← Int.toNat_of_nonneg hfl0] at h
      exact_mod_cast h
    · have h := Int.sub_one_lt_floor (1/(2*a.hop_s) + 1/2)
      rw [← Int.toNat_of_nonneg hfl0] at h
      exact_mod_cast h
  have hkey : (1/(2*a.hop_s)) * a.hop_s = 1/2 := by
    field_simp
    ring
  by_cases htie : (I:ℚ) - 1/(2*a.hop_s) = 1/2
  · -- tie: the rounded lag index would overshoot by half a hop; its
    -- predecessor lands the lag exactly at `-hop/2`.
    have hIpos : 1 ≤ I := by
      by_contra hc
      have hz : I = 0 := by omega
      rw [hz] at htie
      have hpos : (0:ℚ) < 1/(2*a.hop_s) := by positivity
      push_cast at htie
      linarith
    have hexp : (I:ℚ) = 1/(2*a.hop_s) + 1/2 := by linarith
    refine ⟨I - 1, List.mem_range.mpr ?_, ?_⟩
    · unfold stepCount
      rw [if_neg (not_le.mpr hhop)]
      have hfl : (I:ℤ) - 1 ≤ ⌊((1:ℚ)/2 + 1/1000000 - -(1/2)) / a.hop_s⌋ := by
        rw [Int.le_floor, le_div_iff hhop]
        push_cast
        rw [show ((I:ℚ) - 1) * a.hop_s = (I:ℚ) * a.hop_s - a.hop_s by ring,
          hexp, add_mul, hkey]
        nlinarith [hhop]
      omega
    · dsimp only
      have hcast : ((I - 1 : ℕ) : ℚ) = (I:ℚ) - 1 := by
        push_cast [hIpos]
        ring
      have hlag : -(1/2 : ℚ) + ((I - 1 : ℕ) : ℚ) * a.hop_s = -(a.hop_s/2) := by
        rw [hcast, show ((I:ℚ) - 1) * a.hop_s = (I:ℚ) * a.hop_s - a.hop_s by ring,
          hexp, add_mul, hkey]
        ring
      rw [hlag]
      obtain ⟨c, hc, hcpos⟩ := simCounts_self_diagB a hhop _ hinner hlen
      refine ⟨?_, ?_⟩ <;> rw [hc]
      exact hcpos
  · have hqlt : (I:ℚ) - 1/(2*a.hop_s) < 1/2 := lt_of_le_of_ne (by linarith) htie
    have hqgt : -(1/2:ℚ) < (I:ℚ) - 1/(2*a.hop_s) := by linarith
    refine ⟨I, List.mem_range.mpr ?_, ?_⟩
    · unfold stepCount
      rw [if_neg (not_le.mpr hhop)]
      have hfl : (I:ℤ) ≤ ⌊((1:ℚ)/2 + 1/1000000 - -(1/2)) / a.hop_s⌋ := by
        rw [Int.le_floor, le_div_iff hhop]
        push_cast
        by_cases hh1 : a.hop_s ≤ 1
        · have hmul : (I:ℚ) * a.hop_s ≤ (1/(2*a.hop_s) + 1/2) * a.hop_s :=
            mul_le_mul_of_nonneg_right hub hhop.le
          rw [add_mul, hkey] at hmul
          nlinarith [hhop]
        · have hlt : (I:ℚ) < 1 := by
            have h2 : 1/(2*a.hop_s) < 1/2 := by
              rw [div_lt_iff (by positivity)]
              linarith [not_le.mp hh1]
            linarith
          have hz : I = 0 := by
            by_contra hc
            have : (1:ℚ) ≤ (I:ℚ) := by
              exact_mod_cast Nat.one_le_iff_ne_zero.mpr hc
            linarith
          rw [hz]
          push_cast
          nlinarith [hhop]
      omega
    · dsimp only
      have hmgt : (1/(2*a.hop_s) - 1/2) * a.hop_s < (I:ℚ) * a.hop_s :=
        mul_lt_mul_of_pos_right (by linarith) hhop
      have hmlt : (I:ℚ) * a.hop_s < (1/(2*a.hop_s) + 1/2) * a.hop_s :=
        mul_lt_mul_of_pos_right (by linarith) hhop
      rw [sub_mul, hkey] at hmgt
      rw [add_mul, hkey] at hmlt
      obtain ⟨c, hc, hcpos⟩ := simCounts_self_diagA a hhop
        (-(1/2) + (I:ℚ) * a.hop_s) (by linarith) (by linarith)
        (((a.bins.length - 1 : ℕ) : ℚ) * a.hop_s) (by omega) (by omega)
      refine ⟨?_, ?_⟩ <;> rw [hc]
      exact hcpos

/-- Witness for C8 on the two-bin stored fingerprint. -/
theorem fp_self_similarity_one_witness :
    (0:ℚ) < exFpTwo.hop_s ∧ 2 ≤ exFpTwo.bins.length ∧
      fp_similarity exFpTwo exFpTwo = 1 :=
  ⟨by decide, by decide, fp_self_similarity_one exFpTwo (by decide) (by decide)⟩

/-- C8 counterexample to the claim as stated: a one-bin fingerprint has
non-empty bins but zero common duration, so its self-similarity is `0`,
not `1`. -/
theorem fp_self_similarity_counterexample :
    exFpSingle.bins ≠ [] ∧ fp_similarity exFpSingle exFpSingle = 0 ∧
      fp_similarity exFpSingle exFpSingle ≠ 1 := by
  refine ⟨by decide, by decide, by decide⟩

end RatEval

end Sonar
